import Mathlib

/-
  Verification development for the gotimeout package: a TTL eviction daemon
  (Expirator) with per-entry timers, a bounded expiration queue, a two-tier
  throttled flush policy and pluggable storage adapters (no-op, gob file,
  legacy-upgrading gob file).

  The definitions below are a shallow embedding of the Go source:
    - expirator.go (current revision): Handle, HandleMap, Expirator,
      registerExpirationHandle, cancelExpirationHandle, ExpireObject,
      CancelObjectExpiration, loadExpirations, saveExpirations, run
    - storage.go: StorageAdapter, GobFileAdapter, NoopAdapter
    - legacy.go: legacyUpgradingGobFileAdapter

  Machine state (Expirator plus the timers it owns) is modelled as an explicit
  record; handles are heap objects addressed by natural numbers because the Go
  code shares *Handle pointers between the map, the timer callbacks and the
  expiration channel.  Wall-clock time is an integer; time.Time.After is `<`.
  Gob encoding is modelled by an explicit item-stream type; the parts of the
  gob library outside this repository (top-level Encode/Decode of a file) are
  kept abstract as decoder parameters.
-/

namespace Gotimeout

/-- ExpirableID provides opaque identification for an Expirable object
(a Go string). -/
abbrev ExpirableID := String

/-- State of a Go one-shot timer created by time.AfterFunc: armed to fire at
an absolute instant, stopped via Timer.Stop, or already fired. -/
inductive TimerState where
  | armed (fireTime : Int)
  | stopped
  | fired
deriving DecidableEq

/-- Handle is an opaque token marking an object for destruction:
expirationTime, id, and the owned one-shot timer (none models a nil
*time.Timer). -/
structure Handle where
  expirationTime : Int
  id : ExpirableID
  expirationTimer : Option TimerState
deriving DecidableEq

/-- Errors produced by the Go code: *os.PathError from os.Open/os.Create, and
decode errors from encoding/gob. -/
inductive GoError where
  | pathError (op : String) (path : String)
  | gobDecodeError (msg : String)
deriving DecidableEq

/-- The zero Go Handle value (fields zero, timer nil). -/
def zeroHandle : Handle :=
  { expirationTime := 0, id := "", expirationTimer := none }

/-- Replace a handle's timer field. -/
def setTimer (h : Handle) (t : Option TimerState) : Handle :=
  { h with expirationTimer := t }

/-- Replace a handle's expirationTime field. -/
def setTime (h : Handle) (t : Int) : Handle :=
  { h with expirationTime := t }

/-- Pointwise update of the handle heap at one address. -/
def updHeap (hp : Nat → Handle) (a : Nat) (h : Handle) : Nat → Handle :=
  fun a2 => if a2 = a then h else hp a2

/-- Pointwise update of the expiration map at one key (insertion when the
value is some, deletion when it is none). -/
def updMap (m : ExpirableID → Option Nat) (id : ExpirableID) (v : Option Nat) :
    ExpirableID → Option Nat :=
  fun i => if i = id then v else m i

/-- The in-memory state of one Expirator instance together with the resources
it owns: current time, the heap of Handle objects (Go pointers become
addresses), the expiration map (id to handle address), the expiration
channel's queue of handle pointers, the two dirty flags, the allocation
bound, the collaborating store's live ids, the trace of DestroyExpirable
calls, and the errors sent on ErrorChannel. -/
structure ExpState where
  now : Int
  heap : Nat → Handle
  expirationMap : ExpirableID → Option Nat
  expirationChannel : List Nat
  flushRequired : Bool
  urgentFlushRequired : Bool
  nextAddr : Nat
  storeValues : List ExpirableID
  destroyed : List ExpirableID
  errors : List GoError

/-- The state of a freshly constructed Expirator (NewExpiratorWithStorage)
whose collaborating store currently holds the given ids. -/
def initState (store : List ExpirableID) : ExpState :=
  { now := 0
    heap := fun _ => zeroHandle
    expirationMap := fun _ => none
    expirationChannel := []
    flushRequired := false
    urgentFlushRequired := false
    nextAddr := 0
    storeValues := store
    destroyed := []
    errors := [] }

/-- Timer.Stop: disarms an armed timer; a stopped or fired timer (and a nil
timer, though Stop on nil panics - see the C10 claim) is unchanged. -/
def stopTimer : Option TimerState → Option TimerState
  | some (.armed _) => some .stopped
  | t => t

/-- Expirator.cancelExpirationHandle: ex.expirationTimer.Stop(); delete the
map entry keyed by ex.id; mark urgent-dirty. -/
def cancelExpirationHandle (s : ExpState) (a : Nat) : ExpState :=
  let h := s.heap a
  { s with heap := updHeap s.heap a (setTimer h (stopTimer h.expirationTimer))
           expirationMap := updMap s.expirationMap h.id none
           urgentFlushRequired := true }

/-- Expirator.registerExpirationHandle: if the handle has a non-nil timer,
cancel the prior registration first.  Then compare the deadline to now: if
still in the future, insert into the map, mark urgent-dirty and arm a one-shot
timer firing at the deadline; otherwise run the expiry function immediately,
which sends the handle on the expiration channel. -/
def registerExpirationHandle (s : ExpState) (a : Nat) : ExpState :=
  let h := s.heap a
  let s1 := match h.expirationTimer with
    | none => s
    | some _ => cancelExpirationHandle s a
  if s1.now < h.expirationTime then
    let s2 := { s1 with expirationMap := updMap s1.expirationMap h.id (some a)
                        urgentFlushRequired := true }
    { s2 with heap :=
        updHeap s2.heap a (setTimer (s2.heap a) (some (.armed h.expirationTime))) }
  else
    { s1 with expirationChannel := s1.expirationChannel ++ [a] }

/-- Expirator.ExpireObject: look up the id in the map; reuse the existing
Handle if present, otherwise allocate a fresh one with a nil timer; set its
expirationTime to now + dur; register it. -/
def expireObject (s : ExpState) (id : ExpirableID) (dur : Int) : ExpState :=
  match s.expirationMap id with
  | some a =>
      registerExpirationHandle
        { s with heap := updHeap s.heap a (setTime (s.heap a) (s.now + dur)) } a
  | none =>
      let a := s.nextAddr
      let h2 : Handle :=
        { expirationTime := s.now + dur, id := id, expirationTimer := none }
      registerExpirationHandle
        { s with nextAddr := a + 1, heap := updHeap s.heap a h2 } a

/-- Expirator.CancelObjectExpiration: cancel the handle found in the map for
the object's id, or do nothing. -/
def cancelObjectExpiration (s : ExpState) (id : ExpirableID) : ExpState :=
  match s.expirationMap id with
  | some a => cancelExpirationHandle s a
  | none => s

/-- One loaded handle being fed through registerExpirationHandle by
Expirator.loadExpirations: a fresh Handle object with the persisted id and
absolute expiration time and a nil timer. -/
def loadHandle (s : ExpState) (id : ExpirableID) (t : Int) : ExpState :=
  let a := s.nextAddr
  let h2 : Handle := { expirationTime := t, id := id, expirationTimer := none }
  registerExpirationHandle
    { s with nextAddr := a + 1, heap := updHeap s.heap a h2 } a

/-- A timer armed by time.AfterFunc firing once wall-clock time has reached
its fire time: the expiry closure sends the captured handle pointer on the
expiration channel.  A stopped, fired or nil timer cannot fire. -/
def timerFire (s : ExpState) (a : Nat) : ExpState :=
  match (s.heap a).expirationTimer with
  | some (.armed f) =>
      if f ≤ s.now then
        { s with heap := updHeap s.heap a (setTimer (s.heap a) (some .fired))
                 expirationChannel := s.expirationChannel ++ [a] }
      else s
  | _ => s

/-- The event loop receiving from the expiration channel (Expirator.run):
delete the map entry keyed by the received handle's id, mark flush-dirty,
and if the store still reports the object present, destroy it. -/
def processExpiration (s : ExpState) : ExpState :=
  match s.expirationChannel with
  | [] => s
  | a :: rest =>
      let id := (s.heap a).id
      let s1 := { s with expirationChannel := rest
                         expirationMap := updMap s.expirationMap id none
                         flushRequired := true }
      if id ∈ s1.storeValues then
        { s1 with storeValues := s1.storeValues.erase id
                  destroyed := s1.destroyed ++ [id] }
      else s1

/-- Wall-clock time passing. -/
def advanceTime (s : ExpState) (d : Int) : ExpState :=
  { s with now := s.now + d }

/-- The urgent (1 s) ticker case of Expirator.run: if urgent-dirty, call
saveExpirations; a nil adapter error clears both dirty flags, a non-nil one
is sent on the error channel and leaves the flags as they were.  The boolean
records whether SaveExpirationHandles was invoked. -/
def urgentFlushTick (s : ExpState) (saveOutcome : Option GoError) :
    ExpState × Bool :=
  if s.urgentFlushRequired then
    match saveOutcome with
    | none => ({ s with flushRequired := false, urgentFlushRequired := false },
               true)
    | some e => ({ s with errors := s.errors ++ [e] }, true)
  else (s, false)

/-- The regular (30 s) ticker case of Expirator.run: persist when either
dirty flag is set, with the same success/failure handling as the urgent
tick. -/
def regularFlushTick (s : ExpState) (saveOutcome : Option GoError) :
    ExpState × Bool :=
  if s.flushRequired || s.urgentFlushRequired then
    match saveOutcome with
    | none => ({ s with flushRequired := false, urgentFlushRequired := false },
               true)
    | some e => ({ s with errors := s.errors ++ [e] }, true)
  else (s, false)

/-- The contents of a HandleMap as persisted: the underlying map m from
ExpirableID to Handle, as an association list. -/
abbrev PersistedMap := List (ExpirableID × Handle)

/-- One entry of the legacy on-disk schema (legacy.go): a struct holding
ExpirationTime and ID with no slot for the timer. -/
structure LegacyHandle where
  expirationTime : Int
  id : ExpirableID
deriving DecidableEq

/-- The storage adapters the package constructs (storage.go, legacy.go,
expirator.go). -/
inductive StorageAdapter where
  | noop
  | gobFile (filename : String)
  | legacyUpgradingGobFile (filename : String)
deriving DecidableEq

/-- RequiresFlush: GobFileAdapter returns true (and the legacy-upgrading
adapter embeds a GobFileAdapter, promoting that method); NoopAdapter returns
false. -/
def StorageAdapter.requiresFlush : StorageAdapter → Bool
  | .noop => false
  | .gobFile _ => true
  | .legacyUpgradingGobFile _ => true

/-- NewExpirator's adapter selection: an empty path selects NoopAdapter,
otherwise a legacyUpgradingGobFileAdapter wrapping NewGobFileAdapter(path). -/
def newExpiratorAdapter (path : String) : StorageAdapter :=
  if path = "" then .noop else .legacyUpgradingGobFile path

/-- Expirator.run creates the 30 s and 1 s flush tickers exactly when the
adapter's RequiresFlush returns true; otherwise both ticker channels stay nil
and neither select case can ever fire. -/
def flushTickersCreated (sa : StorageAdapter) : Bool :=
  sa.requiresFlush

/-- NoopAdapter.SaveExpirationHandles: does nothing and returns nil. -/
def NoopAdapter.saveExpirationHandles (_hm : PersistedMap) : Option GoError :=
  none

/-- NoopAdapter.LoadExpirationHandles: returns (nil, nil) - no map, no
error. -/
def NoopAdapter.loadExpirationHandles : Except GoError (Option PersistedMap) :=
  .ok none

/-- GobFileAdapter.LoadExpirationHandles: open the backing file (an absent
file makes os.Open fail with a path error); on success decode a *HandleMap
from it, surfacing any decode error; otherwise return the decoded map.
The file system is the optional file content; the gob top-level decode of the
current schema is the abstract decoder parameter. -/
def GobFileAdapter.loadExpirationHandles {γ : Type} (filename : String)
    (fileContent : Option γ)
    (decodeHandleMap : γ → Except GoError PersistedMap) :
    Except GoError (Option PersistedMap) :=
  match fileContent with
  | none => .error (.pathError "open" filename)
  | some c =>
      match decodeHandleMap c with
      | .error e => .error e
      | .ok hm => .ok (some hm)

/-- legacyUpgradingGobFileAdapter.attemptUpgrade: reopen the same file, decode
it under the legacy schema, and convert each recovered entry into a current
Handle with a nil timer. -/
def legacyAttemptUpgrade {γ : Type} (filename : String)
    (fileContent : Option γ)
    (decodeLegacyMap : γ → Except GoError (List (ExpirableID × LegacyHandle))) :
    Except GoError (Option PersistedMap) :=
  match fileContent with
  | none => .error (.pathError "open" filename)
  | some c =>
      match decodeLegacyMap c with
      | .error e => .error e
      | .ok oldMap =>
          .ok (some (oldMap.map (fun p =>
            (p.1, { expirationTime := p.2.expirationTime, id := p.2.id,
                    expirationTimer := none }))))

/-- legacyUpgradingGobFileAdapter.LoadExpirationHandles: load through the
embedded GobFileAdapter; on nil error return its result; on any error fall
back to attemptUpgrade and return whatever attemptUpgrade returns. -/
def legacyUpgradingLoadExpirationHandles {γ : Type} (filename : String)
    (fileContent : Option γ)
    (decodeHandleMap : γ → Except GoError PersistedMap)
    (decodeLegacyMap : γ → Except GoError (List (ExpirableID × LegacyHandle))) :
    Except GoError (Option PersistedMap) :=
  match GobFileAdapter.loadExpirationHandles filename fileContent
      decodeHandleMap with
  | .ok hm => .ok hm
  | .error _ => legacyAttemptUpgrade filename fileContent decodeLegacyMap

/-- Expirator.loadExpirations: given the adapter's load result, return an
error unchanged; on a nil map do nothing; otherwise feed every recovered
handle through registerExpirationHandle. -/
def loadExpirations (r : Except GoError (Option PersistedMap)) (s : ExpState) :
    ExpState × Option GoError :=
  match r with
  | .error e => (s, some e)
  | .ok none => (s, none)
  | .ok (some hm) =>
      (hm.foldl (fun acc p => loadHandle acc p.2.id p.2.expirationTime) s,
       none)

/-- The startup goroutine of Expirator.run: run loadExpirations and send any
returned error on the error channel. -/
def runStartupLoad (r : Except GoError (Option PersistedMap)) (s : ExpState) :
    ExpState :=
  match loadExpirations r s with
  | (s2, some e) => { s2 with errors := s2.errors ++ [e] }
  | (s2, none) => s2

/-
  Gob stream model for the custom MarshalBinary/UnmarshalBinary methods of
  Handle and HandleMap.  A gob stream is a list of typed items; Encode appends
  one item, Decode consumes one item of the expected type or fails.
-/

/-- One gob-encoded value in a stream: a string, a time.Time, or a map from
ExpirableID to a BinaryMarshaler-encoded value (itself a gob stream). -/
inductive GobItem where
  | strv (s : String)
  | timev (t : Int)
  | mapv (entries : List (ExpirableID × List GobItem))

/-- gob Decode into a string: succeeds on a leading string item. -/
def gobDecodeString : List GobItem → Except GoError (String × List GobItem)
  | (.strv s) :: rest => .ok (s, rest)
  | _ => .error (.gobDecodeError "expected string")

/-- gob Decode into a time.Time: succeeds on a leading time item. -/
def gobDecodeTime : List GobItem → Except GoError (Int × List GobItem)
  | (.timev t) :: rest => .ok (t, rest)
  | _ => .error (.gobDecodeError "expected time")

/-- Handle.MarshalBinary: gob-encode the id string then the expiration time.
The timer is not written. -/
def Handle.marshalBinary (h : Handle) : List GobItem :=
  [.strv h.id, .timev h.expirationTime]

/-- Handle.UnmarshalBinary: decode a string into id and a time into
expirationTime, ignoring the error returned by each Decode call (a failed
Decode leaves the target variable at its zero value); always return nil. -/
def Handle.unmarshalBinary (b : List GobItem) : Except GoError Handle :=
  let p1 := match gobDecodeString b with
    | .ok (s, rest) => (s, rest)
    | .error _ => ("", b)
  let p2 := match gobDecodeTime p1.2 with
    | .ok (t, rest) => (t, rest)
    | .error _ => ((0 : Int), p1.2)
  .ok { expirationTime := p2.1, id := p1.1, expirationTimer := none }

/-- HandleMap.MarshalBinary: gob-encode the map m; each *Handle value is
encoded through its own MarshalBinary. -/
def HandleMap.marshalBinary (m : PersistedMap) : List GobItem :=
  [.mapv (m.map (fun p => (p.1, Handle.marshalBinary p.2)))]

/-- HandleMap.UnmarshalBinary: decode into the map m, ignoring the error
returned by Decode (a failed Decode leaves m at its zero value, an empty
map); each handle payload goes through Handle.UnmarshalBinary, which itself
never fails; always return nil. -/
def HandleMap.unmarshalBinary (b : List GobItem) :
    Except GoError PersistedMap :=
  let m := match b with
    | (.mapv entries) :: _ =>
        entries.map (fun p =>
          (p.1, match Handle.unmarshalBinary p.2 with
            | .ok h => h
            | .error _ => zeroHandle))
    | _ => []
  .ok m

/-
  Step relations.  Step is one atomic event of the system: a public API call
  (each of which holds the Expirator's lock for its whole read-modify-write
  sequence), a loaded handle being registered at startup, a timer callback
  firing, the event loop receiving one expiration, one of the two flush
  ticker cases (with the adapter's save outcome as an oracle), or time
  passing.  CalmStep additionally requires that no handle is (re)registered
  for an id while an expiration for that same id is sitting unprocessed in
  the expiration channel, and that startup loading never overwrites a live
  map entry - the race windows that the package documents as best-effort.
-/

/-- One atomic event of the daemon and its environment. -/
inductive Step : ExpState → ExpState → Prop where
  | expire (s : ExpState) (id : ExpirableID) (dur : Int) :
      Step s (expireObject s id dur)
  | cancel (s : ExpState) (id : ExpirableID) :
      Step s (cancelObjectExpiration s id)
  | load (s : ExpState) (id : ExpirableID) (t : Int) :
      Step s (loadHandle s id t)
  | fire (s : ExpState) (a : Nat) : Step s (timerFire s a)
  | process (s : ExpState) : Step s (processExpiration s)
  | utick (s : ExpState) (o : Option GoError) :
      Step s (urgentFlushTick s o).1
  | rtick (s : ExpState) (o : Option GoError) :
      Step s (regularFlushTick s o).1
  | advance (s : ExpState) (d : Int) (hd : 0 ≤ d) :
      Step s (advanceTime s d)

/-- States reachable from a freshly constructed Expirator through any
interleaving of events. -/
inductive Reachable : ExpState → Prop where
  | init (store : List ExpirableID) : Reachable (initState store)
  | step {s s2 : ExpState} : Reachable s → Step s s2 → Reachable s2

/-- One atomic event, excluding the registration-versus-pending-expiration
races: no registration for an id with an expiration still queued for that id,
and no startup load of an id that is already live. -/
inductive CalmStep : ExpState → ExpState → Prop where
  | expire (s : ExpState) (id : ExpirableID) (dur : Int)
      (hg : ∀ a ∈ s.expirationChannel, (s.heap a).id ≠ id) :
      CalmStep s (expireObject s id dur)
  | cancel (s : ExpState) (id : ExpirableID) :
      CalmStep s (cancelObjectExpiration s id)
  | load (s : ExpState) (id : ExpirableID) (t : Int)
      (hg : ∀ a ∈ s.expirationChannel, (s.heap a).id ≠ id)
      (hm : s.expirationMap id = none) :
      CalmStep s (loadHandle s id t)
  | fire (s : ExpState) (a : Nat) : CalmStep s (timerFire s a)
  | process (s : ExpState) : CalmStep s (processExpiration s)
  | utick (s : ExpState) (o : Option GoError) :
      CalmStep s (urgentFlushTick s o).1
  | rtick (s : ExpState) (o : Option GoError) :
      CalmStep s (regularFlushTick s o).1
  | advance (s : ExpState) (d : Int) (hd : 0 ≤ d) :
      CalmStep s (advanceTime s d)

/-- States reachable through race-free interleavings. -/
inductive CalmReachable : ExpState → Prop where
  | init (store : List ExpirableID) : CalmReachable (initState store)
  | step {s s2 : ExpState} : CalmReachable s → CalmStep s s2 →
      CalmReachable s2

/-- The map-timer lockstep invariant together with the bookkeeping facts
needed to push it through every event:
- mapBound/chanBound/heapDefault: every referenced handle address is
  allocated and unallocated addresses hold the zero Handle;
- entries: a mapped handle carries its own key and its timer is armed exactly
  at its expirationTime, unless it has fired and its expiration is still
  queued;
- armedMapped: an armed handle is in the map under its own id (so a handle
  absent from the map is never armed) and its fire time is its
  expirationTime;
- chanUnique: while a handle is queued, the map entry for its id (if any) is
  that very handle;
- chanNotArmed: a queued handle's timer is never armed. -/
structure CalmInv (s : ExpState) : Prop where
  mapBound : ∀ id a, s.expirationMap id = some a → a < s.nextAddr
  chanBound : ∀ a ∈ s.expirationChannel, a < s.nextAddr
  heapDefault : ∀ a, s.nextAddr ≤ a → s.heap a = zeroHandle
  entries : ∀ id a, s.expirationMap id = some a →
    (s.heap a).id = id ∧
    ((s.heap a).expirationTimer = some (.armed (s.heap a).expirationTime) ∨
     ((s.heap a).expirationTimer = some .fired ∧ a ∈ s.expirationChannel))
  armedMapped : ∀ a f, (s.heap a).expirationTimer = some (.armed f) →
    s.expirationMap ((s.heap a).id) = some a ∧ f = (s.heap a).expirationTime
  chanUnique : ∀ a ∈ s.expirationChannel, ∀ a2,
    s.expirationMap ((s.heap a).id) = some a2 → a2 = a
  chanNotArmed : ∀ a ∈ s.expirationChannel, ∀ f,
    (s.heap a).expirationTimer ≠ some (.armed f)

/-- The nil-timer safety invariant over unrestricted interleavings: every
mapped handle address is allocated and every mapped handle has a non-nil
expirationTimer. -/
structure FullInv (s : ExpState) : Prop where
  mapBound : ∀ id a, s.expirationMap id = some a → a < s.nextAddr
  mappedTimerNonNil : ∀ id a, s.expirationMap id = some a →
    (s.heap a).expirationTimer ≠ none

/-- The state produced by registerExpirationHandle's future branch on top of
an intermediate state s1 (either the input state or the result of the
internal cancellation), arming the timer at t. -/
def regFuture (s1 : ExpState) (a : Nat) (t : Int) : ExpState :=
  { s1 with expirationMap := updMap s1.expirationMap ((s1.heap a).id) (some a)
            urgentFlushRequired := true
            heap := updHeap s1.heap a (setTimer (s1.heap a) (some (.armed t))) }

/-- The state produced by registerExpirationHandle's past branch on top of an
intermediate state s1. -/
def regPast (s1 : ExpState) (a : Nat) : ExpState :=
  { s1 with expirationChannel := s1.expirationChannel ++ [a] }

/-- What registerExpirationHandle needs of its caller's state for the
lockstep invariant to be preserved: the bookkeeping bounds, that a is mapped
only under its own key (if at all, and then with a non-nil timer), that every
other map entry and armed handle already satisfies the invariant, the channel
facts, and that neither a itself nor any queued handle with a's id sits in
the expiration channel. -/
structure RegPre (s : ExpState) (a : Nat) : Prop where
  mapBound : ∀ id2 a2, s.expirationMap id2 = some a2 → a2 < s.nextAddr
  chanBound : ∀ a2 ∈ s.expirationChannel, a2 < s.nextAddr
  heapDefault : ∀ a2, s.nextAddr ≤ a2 → s.heap a2 = zeroHandle
  aBound : a < s.nextAddr
  onlyOwn : ∀ id2, s.expirationMap id2 = some a → id2 = (s.heap a).id
  own : s.expirationMap ((s.heap a).id) = none ∨
    (s.expirationMap ((s.heap a).id) = some a ∧
      (s.heap a).expirationTimer ≠ none)
  others : ∀ id2 a2, a2 ≠ a → s.expirationMap id2 = some a2 →
    (s.heap a2).id = id2 ∧
    ((s.heap a2).expirationTimer = some (.armed (s.heap a2).expirationTime) ∨
     ((s.heap a2).expirationTimer = some .fired ∧ a2 ∈ s.expirationChannel))
  othersArmed : ∀ a2 f, a2 ≠ a →
    (s.heap a2).expirationTimer = some (.armed f) →
    s.expirationMap ((s.heap a2).id) = some a2 ∧ f = (s.heap a2).expirationTime
  chanUnique : ∀ a2 ∈ s.expirationChannel, ∀ a3,
    s.expirationMap ((s.heap a2).id) = some a3 → a3 = a2
  chanNotArmed : ∀ a2 ∈ s.expirationChannel, ∀ f,
    (s.heap a2).expirationTimer ≠ some (.armed f)
  notInChan : a ∉ s.expirationChannel
  idNotInChan : ∀ a2 ∈ s.expirationChannel, (s.heap a2).id ≠ (s.heap a).id

/-
  Basic lemmas about the heap/map updates and characterization lemmas that
  expose each operation's effect as a plain record update.
-/

@[simp] theorem updHeap_same (hp : Nat → Handle) (a : Nat) (h : Handle) :
    updHeap hp a h a = h := by
  simp [updHeap]

theorem updHeap_other (hp : Nat → Handle) (a a2 : Nat) (h : Handle)
    (hne : a2 ≠ a) : updHeap hp a h a2 = hp a2 := by
  simp [updHeap, hne]

@[simp] theorem updMap_same (m : ExpirableID → Option Nat) (id : ExpirableID)
    (v : Option Nat) : updMap m id v id = v := by
  simp [updMap]

theorem updMap_other (m : ExpirableID → Option Nat) (id i : ExpirableID)
    (v : Option Nat) (hne : i ≠ id) : updMap m id v i = m i := by
  simp [updMap, hne]

theorem cancel_def (s : ExpState) (a : Nat) :
    cancelExpirationHandle s a =
      { s with heap := updHeap s.heap a
                 (setTimer (s.heap a) (stopTimer (s.heap a).expirationTimer))
               expirationMap := updMap s.expirationMap (s.heap a).id none
               urgentFlushRequired := true } := rfl

theorem register_def_none (s : ExpState) (a : Nat)
    (ht : (s.heap a).expirationTimer = none) :
    registerExpirationHandle s a =
      if s.now < (s.heap a).expirationTime then
        { s with expirationMap :=
                   updMap s.expirationMap (s.heap a).id (some a)
                 urgentFlushRequired := true
                 heap := updHeap s.heap a
                   (setTimer (s.heap a) (some (.armed (s.heap a).expirationTime))) }
      else
        { s with expirationChannel := s.expirationChannel ++ [a] } := by
  simp only [registerExpirationHandle, ht]

theorem register_def_some (s : ExpState) (a : Nat) (ts : TimerState)
    (ht : (s.heap a).expirationTimer = some ts) :
    registerExpirationHandle s a =
      (if s.now < (s.heap a).expirationTime then
        let c := cancelExpirationHandle s a
        { c with expirationMap :=
                   updMap c.expirationMap (s.heap a).id (some a)
                 urgentFlushRequired := true
                 heap := updHeap c.heap a
                   (setTimer (c.heap a) (some (.armed (s.heap a).expirationTime))) }
      else
        { cancelExpirationHandle s a with expirationChannel :=
            (cancelExpirationHandle s a).expirationChannel ++ [a] }) := by
  simp only [registerExpirationHandle, ht]
  rfl

theorem expireObject_def_mem (s : ExpState) (id : ExpirableID) (a : Nat)
    (dur : Int) (hm : s.expirationMap id = some a) :
    expireObject s id dur =
      registerExpirationHandle
        { s with heap := updHeap s.heap a (setTime (s.heap a) (s.now + dur)) }
        a := by
  unfold expireObject
  rw [hm]

theorem expireObject_def_new (s : ExpState) (id : ExpirableID) (dur : Int)
    (hm : s.expirationMap id = none) :
    expireObject s id dur =
      registerExpirationHandle
        { s with nextAddr := s.nextAddr + 1
                 heap := updHeap s.heap s.nextAddr
                   { expirationTime := s.now + dur, id := id,
                     expirationTimer := none } } s.nextAddr := by
  unfold expireObject
  rw [hm]

theorem loadHandle_def (s : ExpState) (id : ExpirableID) (t : Int) :
    loadHandle s id t =
      registerExpirationHandle
        { s with nextAddr := s.nextAddr + 1
                 heap := updHeap s.heap s.nextAddr
                   { expirationTime := t, id := id,
                     expirationTimer := none } } s.nextAddr := rfl

theorem cancelObject_def_mem (s : ExpState) (id : ExpirableID) (a : Nat)
    (hm : s.expirationMap id = some a) :
    cancelObjectExpiration s id = cancelExpirationHandle s a := by
  unfold cancelObjectExpiration
  rw [hm]

theorem cancelObject_def_none (s : ExpState) (id : ExpirableID)
    (hm : s.expirationMap id = none) :
    cancelObjectExpiration s id = s := by
  unfold cancelObjectExpiration
  rw [hm]

/-
  Adapter-level and serialization-level claims.
-/

/-- C1: the spec says a missing backing file makes LoadExpirationHandles
return "none" with no error and the startup load report nothing.  The code
does the opposite: GobFileAdapter.LoadExpirationHandles surfaces the os.Open
failure, the legacy-upgrading adapter's fallback fails to open the same
absent file and surfaces its own open error, loadExpirations forwards it, and
the run goroutine sends it on the error channel.  The pending set does stay
empty.  This theorem evaluates the model at the failing input (absent
file). -/
theorem C1_missing_file_reports_error {γ : Type} (filename : String)
    (decodeHandleMap : γ → Except GoError PersistedMap)
    (decodeLegacyMap : γ → Except GoError (List (ExpirableID × LegacyHandle)))
    (s : ExpState) :
    legacyUpgradingLoadExpirationHandles filename (none : Option γ)
        decodeHandleMap decodeLegacyMap =
      .error (.pathError "open" filename) ∧
    (runStartupLoad
        (legacyUpgradingLoadExpirationHandles filename (none : Option γ)
          decodeHandleMap decodeLegacyMap) s).errors =
      s.errors ++ [.pathError "open" filename] ∧
    (runStartupLoad
        (legacyUpgradingLoadExpirationHandles filename (none : Option γ)
          decodeHandleMap decodeLegacyMap) s).expirationMap =
      s.expirationMap := by
  refine ⟨rfl, rfl, rfl⟩

/-- C2 counterexample: a present file that fails to decode under the current
schema with one error and under the legacy schema with a different error.
The adapter surfaces the legacy attempt's error, not the original decode
error, so the claim as stated is false. -/
theorem C2_counterexample :
    legacyUpgradingLoadExpirationHandles "state.gob" (some ())
        (fun _ => .error (.gobDecodeError "current schema"))
        (fun _ => .error (.gobDecodeError "legacy schema")) =
      .error (.gobDecodeError "legacy schema") ∧
    GoError.gobDecodeError "legacy schema" ≠
      GoError.gobDecodeError "current schema" := by
  exact ⟨rfl, by decide⟩

/-- C2 amended: when the current-schema load fails and the legacy re-parse of
the same file also fails, the error surfaced to the caller is the one from
the secondary legacy attempt; the original decode error is discarded. -/
theorem C2_legacy_error_surfaced {γ : Type} (filename : String) (c : γ)
    (decodeHandleMap : γ → Except GoError PersistedMap)
    (decodeLegacyMap : γ → Except GoError (List (ExpirableID × LegacyHandle)))
    (e1 e2 : GoError)
    (h1 : decodeHandleMap c = .error e1)
    (h2 : decodeLegacyMap c = .error e2) :
    legacyUpgradingLoadExpirationHandles filename (some c)
        decodeHandleMap decodeLegacyMap = .error e2 := by
  simp [legacyUpgradingLoadExpirationHandles,
    GobFileAdapter.loadExpirationHandles, h1, legacyAttemptUpgrade, h2]

theorem C2_legacy_error_surfaced_witness :
    ((fun _ : Unit => (.error (.gobDecodeError "current schema") :
        Except GoError PersistedMap)) () =
      .error (.gobDecodeError "current schema")) ∧
    ((fun _ : Unit => (.error (.gobDecodeError "legacy schema") :
        Except GoError (List (ExpirableID × LegacyHandle)))) () =
      .error (.gobDecodeError "legacy schema")) ∧
    legacyUpgradingLoadExpirationHandles "state.gob" (some ())
        (fun _ => .error (.gobDecodeError "current schema"))
        (fun _ => .error (.gobDecodeError "legacy schema")) =
      .error (.gobDecodeError "legacy schema") :=
  ⟨rfl, rfl,
    C2_legacy_error_surfaced "state.gob" ()
      (fun _ => .error (.gobDecodeError "current schema"))
      (fun _ => .error (.gobDecodeError "legacy schema"))
      (.gobDecodeError "current schema") (.gobDecodeError "legacy schema")
      rfl rfl⟩

/-- C7: NewExpirator with an empty path selects the no-op adapter; its
RequiresFlush is false, so Expirator.run creates no flush tickers (and hence
no periodic flush can ever fire); its save is a no-op returning nil and its
load returns (nil, nil). -/
theorem C7_noop_adapter :
    newExpiratorAdapter "" = StorageAdapter.noop ∧
    StorageAdapter.requiresFlush .noop = false ∧
    flushTickersCreated (newExpiratorAdapter "") = false ∧
    (∀ hm : PersistedMap, NoopAdapter.saveExpirationHandles hm = none) ∧
    NoopAdapter.loadExpirationHandles = .ok none := by
  exact ⟨rfl, rfl, rfl, fun _ => rfl, rfl⟩

/-- C8: serializing a HandleMap and deserializing the result reconstructs a
map with the same keys and, for each key, a Handle with the same id and the
same absolute expiration time and a nil timer; the timer is never part of the
serialized representation (marshalling is invariant under the timer field);
and every deserialized Handle has a nil timer. -/
theorem C8_marshal_roundtrip :
    (∀ m : PersistedMap,
      HandleMap.unmarshalBinary (HandleMap.marshalBinary m) =
        .ok (m.map (fun p => (p.1,
          { expirationTime := p.2.expirationTime, id := p.2.id,
            expirationTimer := none })))) ∧
    (∀ h : Handle,
      Handle.marshalBinary h =
        Handle.marshalBinary
          { expirationTime := h.expirationTime, id := h.id,
            expirationTimer := none }) ∧
    (∀ b : List GobItem, ∃ t s2,
      Handle.unmarshalBinary b =
        .ok { expirationTime := t, id := s2, expirationTimer := none }) := by
  refine ⟨fun m => ?_, fun h => rfl, fun b => ⟨_, _, rfl⟩⟩
  simp only [HandleMap.marshalBinary, HandleMap.unmarshalBinary,
    List.map_map]
  rfl

/-- C9: Handle.UnmarshalBinary and HandleMap.UnmarshalBinary return no error
on any input stream, malformed or truncated included: the internal Decode
errors are ignored and the affected fields keep their zero values. -/
theorem C9_unmarshal_never_errors :
    (∀ b : List GobItem, ∃ h, Handle.unmarshalBinary b = .ok h) ∧
    (∀ b : List GobItem, ∃ m, HandleMap.unmarshalBinary b = .ok m) ∧
    Handle.unmarshalBinary [] = .ok zeroHandle ∧
    Handle.unmarshalBinary [.timev 5] =
      .ok { expirationTime := 5, id := "", expirationTimer := none } ∧
    Handle.unmarshalBinary [.strv "x"] =
      .ok { expirationTime := 0, id := "x", expirationTimer := none } ∧
    HandleMap.unmarshalBinary [.strv "junk"] = .ok [] := by
  exact ⟨fun b => ⟨_, rfl⟩, fun b => ⟨_, rfl⟩, rfl, rfl, rfl, rfl⟩

/-- C5: registerExpirationHandle with a deadline not in the future enqueues
the handle immediately, leaves it with no armed timer, and does not insert it
into the map; with a deadline in the future it inserts the handle into the
map, marks urgent-dirty, arms a one-shot timer at exactly the deadline, and
enqueues nothing; and an armed timer, once its fire time is reached, enqueues
exactly its handle. -/
theorem C5_register_deadline_policy (s : ExpState) (a : Nat) :
    ((s.heap a).expirationTime ≤ s.now →
      (registerExpirationHandle s a).expirationChannel =
        s.expirationChannel ++ [a] ∧
      (∀ f, ((registerExpirationHandle s a).heap a).expirationTimer ≠
        some (.armed f)) ∧
      ((registerExpirationHandle s a).expirationMap (s.heap a).id = none ∨
       (registerExpirationHandle s a).expirationMap (s.heap a).id =
         s.expirationMap (s.heap a).id)) ∧
    (s.now < (s.heap a).expirationTime →
      (registerExpirationHandle s a).expirationMap (s.heap a).id = some a ∧
      (registerExpirationHandle s a).urgentFlushRequired = true ∧
      ((registerExpirationHandle s a).heap a).expirationTimer =
        some (.armed (s.heap a).expirationTime) ∧
      (registerExpirationHandle s a).expirationChannel =
        s.expirationChannel) ∧
    (∀ (s2 : ExpState) (f : Int), (s2.heap a).expirationTimer =
        some (.armed f) → f ≤ s2.now →
      (timerFire s2 a).expirationChannel = s2.expirationChannel ++ [a]) := by
  refine ⟨fun hle => ?_, fun hlt => ?_, fun s2 f hf hnow => ?_⟩
  · cases ht : (s.heap a).expirationTimer with
    | none =>
        rw [register_def_none s a ht, if_neg (not_lt.mpr hle)]
        exact ⟨rfl, by simp [ht], Or.inr rfl⟩
    | some ts =>
        rw [register_def_some s a ts ht]
        simp only [if_neg (not_lt.mpr hle)]
        refine ⟨rfl, ?_, Or.inl (by simp [cancel_def])⟩
        intro f
        simp only [cancel_def, updHeap_same, setTimer]
        cases ts <;> simp [stopTimer, ht]
  · cases ht : (s.heap a).expirationTimer with
    | none =>
        rw [register_def_none s a ht, if_pos hlt]
        refine ⟨by simp, rfl, ?_, rfl⟩
        simp [setTimer]
    | some ts =>
        rw [register_def_some s a ts ht]
        simp only [if_pos hlt]
        refine ⟨by simp, trivial, ?_, rfl⟩
        simp [setTimer]
  · unfold timerFire
    rw [hf]
    simp [hnow]

theorem C5_register_deadline_policy_witness :
    (((initState []).heap 0).expirationTime ≤ (initState []).now ∧
      (registerExpirationHandle (initState []) 0).expirationChannel =
        (initState []).expirationChannel ++ [0]) ∧
    ((advanceTime (initState []) (-1)).now <
        ((advanceTime (initState []) (-1)).heap 0).expirationTime ∧
      (registerExpirationHandle (advanceTime (initState []) (-1))
          0).expirationMap ((advanceTime (initState []) (-1)).heap 0).id =
        some 0) ∧
    (timerFire (advanceTime (registerExpirationHandle
        (advanceTime (initState []) (-1)) 0) 1) 0).expirationChannel =
      (advanceTime (registerExpirationHandle (advanceTime (initState [])
        (-1)) 0) 1).expirationChannel ++ [0] := by
  refine ⟨⟨by decide, ?_⟩, ⟨by decide, ?_⟩, ?_⟩
  · exact ((C5_register_deadline_policy (initState []) 0).1 (by decide)).1
  · exact (((C5_register_deadline_policy (advanceTime (initState []) (-1))
      0).2.1 (by decide))).1
  · exact (C5_register_deadline_policy
      (registerExpirationHandle (advanceTime (initState []) (-1)) 0) 0).2.2
      (advanceTime (registerExpirationHandle
        (advanceTime (initState []) (-1)) 0) 1) 0
      (by decide) (by decide)

/-- C6 counterexample: on an urgent tick with only the urgent-dirty flag set,
a failed save reports the error on the error channel but does not leave
"both dirty flags set": flushRequired is still false afterwards.  (What
holds is that neither flag is cleared.) -/
theorem C6_counterexample :
    ({ initState [] with urgentFlushRequired := true } :
        ExpState).urgentFlushRequired = true ∧
    (urgentFlushTick { initState [] with urgentFlushRequired := true }
        (some (.pathError "create" "f"))).1.errors =
      [.pathError "create" "f"] ∧
    (urgentFlushTick { initState [] with urgentFlushRequired := true }
        (some (.pathError "create" "f"))).1.flushRequired = false := by
  exact ⟨rfl, rfl, rfl⟩

/-- C6 amended: the urgent tick saves exactly when urgent-dirty is set and
the regular tick exactly when either dirty flag is set; a successful save
clears both flags and reports nothing; a failed save reports the error on
the error channel and leaves each dirty flag exactly as it was, so the next
scheduled tick re-attempts the save. -/
theorem C6_flush_tick_policy (s : ExpState) (o : Option GoError)
    (e : GoError) :
    ((urgentFlushTick s o).2 = s.urgentFlushRequired) ∧
    ((regularFlushTick s o).2 = (s.flushRequired || s.urgentFlushRequired)) ∧
    (s.urgentFlushRequired = true →
      (urgentFlushTick s none).1.flushRequired = false ∧
      (urgentFlushTick s none).1.urgentFlushRequired = false ∧
      (urgentFlushTick s none).1.errors = s.errors) ∧
    ((s.flushRequired || s.urgentFlushRequired) = true →
      (regularFlushTick s none).1.flushRequired = false ∧
      (regularFlushTick s none).1.urgentFlushRequired = false ∧
      (regularFlushTick s none).1.errors = s.errors) ∧
    (s.urgentFlushRequired = true →
      (urgentFlushTick s (some e)).1.errors = s.errors ++ [e] ∧
      (urgentFlushTick s (some e)).1.flushRequired = s.flushRequired ∧
      (urgentFlushTick s (some e)).1.urgentFlushRequired =
        s.urgentFlushRequired) ∧
    ((s.flushRequired || s.urgentFlushRequired) = true →
      (regularFlushTick s (some e)).1.errors = s.errors ++ [e] ∧
      (regularFlushTick s (some e)).1.flushRequired = s.flushRequired ∧
      (regularFlushTick s (some e)).1.urgentFlushRequired =
        s.urgentFlushRequired) := by
  refine ⟨?_, ?_, fun hu => ?_, fun hr => ?_, fun hu => ?_, fun hr => ?_⟩
  · by_cases hu : s.urgentFlushRequired <;> cases o <;>
      simp [urgentFlushTick, hu]
  · by_cases hr : s.flushRequired || s.urgentFlushRequired <;> cases o <;>
      simp_all [regularFlushTick]
  · simp [urgentFlushTick, hu]
  · simp [regularFlushTick, hr]
  · simp [urgentFlushTick, hu]
  · simp [regularFlushTick, hr]

theorem C6_flush_tick_policy_witness :
    (({ initState [] with urgentFlushRequired := true } :
        ExpState).urgentFlushRequired = true ∧
      (urgentFlushTick { initState [] with urgentFlushRequired := true }
        none).1.urgentFlushRequired = false) ∧
    ((({ initState [] with flushRequired := true } :
        ExpState).flushRequired ||
      ({ initState [] with flushRequired := true } :
        ExpState).urgentFlushRequired) = true ∧
      (regularFlushTick { initState [] with flushRequired := true }
        none).1.flushRequired = false) := by
  refine ⟨⟨rfl, ?_⟩, ⟨rfl, ?_⟩⟩
  · exact ((C6_flush_tick_policy
      { initState [] with urgentFlushRequired := true } none
      (.pathError "create" "f")).2.2.1 rfl).2.1
  · exact ((C6_flush_tick_policy
      { initState [] with flushRequired := true } none
      (.pathError "create" "f")).2.2.2.1 rfl).1

/-
  Preservation of the nil-timer safety invariant (FullInv) under every event,
  with no restriction on interleavings.
-/

theorem stopTimer_ne_none (t : Option TimerState) (h : t ≠ none) :
    stopTimer t ≠ none := by
  cases t with
  | none => exact absurd rfl h
  | some ts => cases ts <;> simp [stopTimer]

theorem stopTimer_not_armed (t : Option TimerState) (f : Int) :
    stopTimer t ≠ some (.armed f) := by
  cases t with
  | none => simp [stopTimer]
  | some ts => cases ts <;> simp [stopTimer]

theorem fullInv_of_fields {s s2 : ExpState} (inv : FullInv s)
    (hmap : s2.expirationMap = s.expirationMap) (hheap : s2.heap = s.heap)
    (hnext : s2.nextAddr = s.nextAddr) : FullInv s2 := by
  constructor
  · rw [hmap, hnext]; exact inv.mapBound
  · rw [hmap, hheap]; exact inv.mappedTimerNonNil

theorem fullInv_cancel {s : ExpState} (a : Nat) (inv : FullInv s) :
    FullInv (cancelExpirationHandle s a) := by
  rw [cancel_def]
  constructor
  · intro id2 a2 hm2
    dsimp only at hm2 ⊢
    by_cases hk : id2 = (s.heap a).id
    · subst hk; rw [updMap_same] at hm2; exact absurd hm2 (by simp)
    · rw [updMap_other _ _ _ _ hk] at hm2
      exact inv.mapBound id2 a2 hm2
  · intro id2 a2 hm2
    dsimp only at hm2 ⊢
    by_cases hk : id2 = (s.heap a).id
    · subst hk; rw [updMap_same] at hm2; exact absurd hm2 (by simp)
    · rw [updMap_other _ _ _ _ hk] at hm2
      have hpre := inv.mappedTimerNonNil id2 a2 hm2
      by_cases ha2 : a2 = a
      · subst ha2
        rw [updHeap_same]
        exact stopTimer_ne_none _ hpre
      · rw [updHeap_other _ _ _ _ ha2]
        exact hpre

theorem fullInv_register {s : ExpState} (a : Nat) (ha : a < s.nextAddr)
    (inv : FullInv s) : FullInv (registerExpirationHandle s a) := by
  cases ht : (s.heap a).expirationTimer with
  | none =>
      rw [register_def_none s a ht]
      split
      · constructor
        · intro id2 a2 hm2
          dsimp only at hm2 ⊢
          by_cases hk : id2 = (s.heap a).id
          · subst hk; rw [updMap_same] at hm2
            cases hm2; exact ha
          · rw [updMap_other _ _ _ _ hk] at hm2
            exact inv.mapBound id2 a2 hm2
        · intro id2 a2 hm2
          dsimp only at hm2 ⊢
          by_cases ha2 : a2 = a
          · subst ha2; rw [updHeap_same]; simp [setTimer]
          · rw [updHeap_other _ _ _ _ ha2]
            by_cases hk : id2 = (s.heap a).id
            · subst hk; rw [updMap_same] at hm2
              cases hm2; exact absurd rfl ha2
            · rw [updMap_other _ _ _ _ hk] at hm2
              exact inv.mappedTimerNonNil id2 a2 hm2
      · exact fullInv_of_fields inv rfl rfl rfl
  | some ts =>
      rw [register_def_some s a ts ht]
      have hc := fullInv_cancel a inv
      split
      · constructor
        · intro id2 a2 hm2
          dsimp only at hm2 ⊢
          by_cases hk : id2 = (s.heap a).id
          · subst hk; rw [updMap_same] at hm2
            cases hm2
            show a < (cancelExpirationHandle s a).nextAddr
            exact ha
          · rw [updMap_other _ _ _ _ hk] at hm2
            exact hc.mapBound id2 a2 hm2
        · intro id2 a2 hm2
          dsimp only at hm2 ⊢
          by_cases ha2 : a2 = a
          · subst ha2; rw [updHeap_same]; simp [setTimer]
          · rw [updHeap_other _ _ _ _ ha2]
            by_cases hk : id2 = (s.heap a).id
            · subst hk; rw [updMap_same] at hm2
              cases hm2; exact absurd rfl ha2
            · rw [updMap_other _ _ _ _ hk] at hm2
              exact hc.mappedTimerNonNil id2 a2 hm2
      · exact fullInv_of_fields hc rfl rfl rfl

theorem fullInv_expireObject {s : ExpState} (id : ExpirableID) (dur : Int)
    (inv : FullInv s) : FullInv (expireObject s id dur) := by
  cases hm : s.expirationMap id with
  | some a =>
      rw [expireObject_def_mem s id a dur hm]
      have hb := inv.mapBound id a hm
      refine fullInv_register a hb ?_
      constructor
      · exact inv.mapBound
      · intro id2 a2 hm2
        dsimp only at hm2 ⊢
        by_cases ha2 : a2 = a
        · subst ha2; rw [updHeap_same]
          simpa [setTime] using inv.mappedTimerNonNil id2 a2 hm2
        · rw [updHeap_other _ _ _ _ ha2]
          exact inv.mappedTimerNonNil id2 a2 hm2
  | none =>
      rw [expireObject_def_new s id dur hm]
      refine fullInv_register s.nextAddr (Nat.lt_succ_self _) ?_
      constructor
      · intro id2 a2 hm2
        dsimp only at hm2 ⊢
        exact Nat.lt_succ_of_lt (inv.mapBound id2 a2 hm2)
      · intro id2 a2 hm2
        dsimp only at hm2 ⊢
        have hb := inv.mapBound id2 a2 hm2
        rw [updHeap_other _ _ _ _ (Nat.ne_of_lt hb)]
        exact inv.mappedTimerNonNil id2 a2 hm2

theorem fullInv_loadHandle {s : ExpState} (id : ExpirableID) (t : Int)
    (inv : FullInv s) : FullInv (loadHandle s id t) := by
  rw [loadHandle_def]
  refine fullInv_register s.nextAddr (Nat.lt_succ_self _) ?_
  constructor
  · intro id2 a2 hm2
    dsimp only at hm2 ⊢
    exact Nat.lt_succ_of_lt (inv.mapBound id2 a2 hm2)
  · intro id2 a2 hm2
    dsimp only at hm2 ⊢
    have hb := inv.mapBound id2 a2 hm2
    rw [updHeap_other _ _ _ _ (Nat.ne_of_lt hb)]
    exact inv.mappedTimerNonNil id2 a2 hm2

theorem fullInv_cancelObject {s : ExpState} (id : ExpirableID)
    (inv : FullInv s) : FullInv (cancelObjectExpiration s id) := by
  cases hm : s.expirationMap id with
  | some a => rw [cancelObject_def_mem s id a hm]; exact fullInv_cancel a inv
  | none => rw [cancelObject_def_none s id hm]; exact inv

theorem fullInv_timerFire {s : ExpState} (a : Nat) (inv : FullInv s) :
    FullInv (timerFire s a) := by
  unfold timerFire
  split
  · split
    · constructor
      · intro id2 a2 hm2
        dsimp only at hm2 ⊢
        exact inv.mapBound id2 a2 hm2
      · intro id2 a2 hm2
        dsimp only at hm2 ⊢
        by_cases ha2 : a2 = a
        · subst ha2; rw [updHeap_same]; simp [setTimer]
        · rw [updHeap_other _ _ _ _ ha2]
          exact inv.mappedTimerNonNil id2 a2 hm2
    · exact inv
  · exact inv

theorem fullInv_process {s : ExpState} (inv : FullInv s) :
    FullInv (processExpiration s) := by
  unfold processExpiration
  split
  · exact inv
  · rename_i a rest heq
    dsimp only
    have hmap : ∀ id2 a2,
        updMap s.expirationMap (s.heap a).id none id2 = some a2 →
        s.expirationMap id2 = some a2 := by
      intro id2 a2 h
      by_cases hk : id2 = (s.heap a).id
      · subst hk; rw [updMap_same] at h; exact absurd h (by simp)
      · rwa [updMap_other _ _ _ _ hk] at h
    split
    · constructor
      · intro id2 a2 hm2
        dsimp only at hm2 ⊢
        exact inv.mapBound id2 a2 (hmap id2 a2 hm2)
      · intro id2 a2 hm2
        dsimp only at hm2 ⊢
        exact inv.mappedTimerNonNil id2 a2 (hmap id2 a2 hm2)
    · constructor
      · intro id2 a2 hm2
        dsimp only at hm2 ⊢
        exact inv.mapBound id2 a2 (hmap id2 a2 hm2)
      · intro id2 a2 hm2
        dsimp only at hm2 ⊢
        exact inv.mappedTimerNonNil id2 a2 (hmap id2 a2 hm2)

theorem utick_fields (s : ExpState) (o : Option GoError) :
    (urgentFlushTick s o).1.expirationMap = s.expirationMap ∧
    (urgentFlushTick s o).1.expirationChannel = s.expirationChannel ∧
    (urgentFlushTick s o).1.heap = s.heap ∧
    (urgentFlushTick s o).1.nextAddr = s.nextAddr := by
  by_cases hu : s.urgentFlushRequired <;> cases o <;>
    simp [urgentFlushTick, hu]

theorem rtick_fields (s : ExpState) (o : Option GoError) :
    (regularFlushTick s o).1.expirationMap = s.expirationMap ∧
    (regularFlushTick s o).1.expirationChannel = s.expirationChannel ∧
    (regularFlushTick s o).1.heap = s.heap ∧
    (regularFlushTick s o).1.nextAddr = s.nextAddr := by
  by_cases hr : s.flushRequired || s.urgentFlushRequired <;> cases o <;>
    simp [regularFlushTick, hr]

theorem fullInv_step {s s2 : ExpState} (inv : FullInv s) (st : Step s s2) :
    FullInv s2 := by
  cases st with
  | expire id dur => exact fullInv_expireObject id dur inv
  | cancel id => exact fullInv_cancelObject id inv
  | load id t => exact fullInv_loadHandle id t inv
  | fire a => exact fullInv_timerFire a inv
  | process => exact fullInv_process inv
  | utick o =>
      have h := utick_fields s o
      exact fullInv_of_fields inv h.1 h.2.2.1 h.2.2.2
  | rtick o =>
      have h := rtick_fields s o
      exact fullInv_of_fields inv h.1 h.2.2.1 h.2.2.2
  | advance d hd => exact fullInv_of_fields inv rfl rfl rfl

theorem fullInv_init (store : List ExpirableID) : FullInv (initState store) := by
  constructor
  · intro id a hm; exact absurd hm (by simp [initState])
  · intro id a hm; exact absurd hm (by simp [initState])

theorem fullInv_reachable {s : ExpState} (h : Reachable s) : FullInv s := by
  induction h with
  | init store => exact fullInv_init store
  | step hr hs ih => exact fullInv_step ih hs

/-- C10: in every state reachable through the public operations (and the
daemon's own events), every Handle stored in the HandleMap has a non-nil
expirationTimer.  The unconditional ex.expirationTimer.Stop() in
cancelExpirationHandle is reached either from CancelObjectExpiration on a
present map entry - whose receiver is exactly a mapped handle, non-nil by
this invariant - or from registerExpirationHandle under its own explicit
non-nil guard, so it never dereferences a nil timer. -/
theorem C10_mapped_timer_non_nil (s : ExpState) (h : Reachable s) :
    ∀ id a, s.expirationMap id = some a →
      (s.heap a).expirationTimer ≠ none :=
  (fullInv_reachable h).mappedTimerNonNil

theorem C10_mapped_timer_non_nil_witness :
    (expireObject (initState []) "a" 5).expirationMap "a" = some 0 ∧
    ((expireObject (initState []) "a" 5).heap 0).expirationTimer ≠ none :=
  ⟨rfl, C10_mapped_timer_non_nil (expireObject (initState []) "a" 5)
    (Reachable.step (Reachable.init []) (Step.expire (initState []) "a" 5))
    "a" 0 rfl⟩

/-- C3 counterexample: register id "a" with TTL 0 (the handle is enqueued
immediately and never enters the map), re-register "a" with TTL 100 (a fresh
handle, address 1, enters the map with a timer armed at 100), then let the
event loop process the queued first expiration: it deletes the map entry
keyed "a" - the second registration's entry - leaving the armed handle at
address 1 with no map entry.  So directly after a mutating operation (the
loop's processing of a fired expiration) there is a Handle absent from the
map that still has an armed timer, falsifying the claimed invariant. -/
theorem C3_counterexample :
    (processExpiration (expireObject (expireObject (initState []) "a" 0)
        "a" 100)).expirationMap "a" = none ∧
    ((processExpiration (expireObject (expireObject (initState []) "a" 0)
        "a" 100)).heap 1).expirationTimer = some (.armed 100) ∧
    ((processExpiration (expireObject (expireObject (initState []) "a" 0)
        "a" 100)).heap 1).id = "a" :=
  ⟨rfl, rfl, rfl⟩

/-
  Preservation of the lockstep invariant (CalmInv) under race-free events.
-/

@[simp] theorem setTimer_timer (h : Handle) (t : Option TimerState) :
    (setTimer h t).expirationTimer = t := rfl

@[simp] theorem setTimer_id (h : Handle) (t : Option TimerState) :
    (setTimer h t).id = h.id := rfl

@[simp] theorem setTimer_time (h : Handle) (t : Option TimerState) :
    (setTimer h t).expirationTime = h.expirationTime := rfl

@[simp] theorem setTime_timer (h : Handle) (t : Int) :
    (setTime h t).expirationTimer = h.expirationTimer := rfl

@[simp] theorem setTime_id (h : Handle) (t : Int) :
    (setTime h t).id = h.id := rfl

@[simp] theorem setTime_time (h : Handle) (t : Int) :
    (setTime h t).expirationTime = t := rfl

theorem cancel_heap (s : ExpState) (a : Nat) :
    (cancelExpirationHandle s a).heap =
      updHeap s.heap a
        (setTimer (s.heap a) (stopTimer (s.heap a).expirationTimer)) := rfl

theorem cancel_map (s : ExpState) (a : Nat) :
    (cancelExpirationHandle s a).expirationMap =
      updMap s.expirationMap ((s.heap a).id) none := rfl

theorem cancel_chan (s : ExpState) (a : Nat) :
    (cancelExpirationHandle s a).expirationChannel =
      s.expirationChannel := rfl

theorem cancel_nextAddr (s : ExpState) (a : Nat) :
    (cancelExpirationHandle s a).nextAddr = s.nextAddr := rfl

theorem register_eq_future_none (s : ExpState) (a : Nat)
    (ht : (s.heap a).expirationTimer = none)
    (hf : s.now < (s.heap a).expirationTime) :
    registerExpirationHandle s a =
      regFuture s a ((s.heap a).expirationTime) := by
  rw [register_def_none s a ht, if_pos hf]; rfl

theorem register_eq_past_none (s : ExpState) (a : Nat)
    (ht : (s.heap a).expirationTimer = none)
    (hp : ¬ s.now < (s.heap a).expirationTime) :
    registerExpirationHandle s a = regPast s a := by
  rw [register_def_none s a ht, if_neg hp]; rfl

theorem register_eq_future_some (s : ExpState) (a : Nat) (ts : TimerState)
    (ht : (s.heap a).expirationTimer = some ts)
    (hf : s.now < (s.heap a).expirationTime) :
    registerExpirationHandle s a =
      regFuture (cancelExpirationHandle s a) a
        ((s.heap a).expirationTime) := by
  rw [register_def_some s a ts ht]
  simp only [if_pos hf]
  have hch : (cancelExpirationHandle s a).heap a =
      setTimer (s.heap a) (stopTimer (s.heap a).expirationTimer) := by
    rw [cancel_heap, updHeap_same]
  dsimp only [regFuture]
  rw [hch]
  simp only [setTimer_id]

theorem register_eq_past_some (s : ExpState) (a : Nat) (ts : TimerState)
    (ht : (s.heap a).expirationTimer = some ts)
    (hp : ¬ s.now < (s.heap a).expirationTime) :
    registerExpirationHandle s a =
      regPast (cancelExpirationHandle s a) a := by
  rw [register_def_some s a ts ht]
  simp only [if_neg hp]
  rfl

theorem calmInv_regFuture (s1 : ExpState) (a : Nat)
    (mb : ∀ id2 a2, s1.expirationMap id2 = some a2 → a2 < s1.nextAddr)
    (cb : ∀ a2 ∈ s1.expirationChannel, a2 < s1.nextAddr)
    (hd : ∀ a2, s1.nextAddr ≤ a2 → s1.heap a2 = zeroHandle)
    (ha : a < s1.nextAddr)
    (hnomap : ∀ id2, s1.expirationMap id2 ≠ some a)
    (hown : s1.expirationMap ((s1.heap a).id) = none)
    (hE : ∀ id2 a2, s1.expirationMap id2 = some a2 →
      (s1.heap a2).id = id2 ∧
      ((s1.heap a2).expirationTimer =
          some (.armed (s1.heap a2).expirationTime) ∨
       ((s1.heap a2).expirationTimer = some .fired ∧
          a2 ∈ s1.expirationChannel)))
    (hB : ∀ a2 f, a2 ≠ a →
      (s1.heap a2).expirationTimer = some (.armed f) →
      s1.expirationMap ((s1.heap a2).id) = some a2 ∧
        f = (s1.heap a2).expirationTime)
    (hCU : ∀ a2 ∈ s1.expirationChannel, ∀ a3,
      s1.expirationMap ((s1.heap a2).id) = some a3 → a3 = a2)
    (hCA : ∀ a2 ∈ s1.expirationChannel, ∀ f,
      (s1.heap a2).expirationTimer ≠ some (.armed f))
    (hnc : a ∉ s1.expirationChannel)
    (hic : ∀ a2 ∈ s1.expirationChannel, (s1.heap a2).id ≠ (s1.heap a).id) :
    CalmInv (regFuture s1 a ((s1.heap a).expirationTime)) := by
  constructor
  · intro id2 a2 hm2
    dsimp only [regFuture] at hm2 ⊢
    by_cases hk : id2 = (s1.heap a).id
    · subst hk
      rw [updMap_same] at hm2
      injection hm2 with h2
      subst h2
      exact ha
    · rw [updMap_other _ _ _ _ hk] at hm2
      exact mb id2 a2 hm2
  · intro a2 hmem
    dsimp only [regFuture] at hmem ⊢
    exact cb a2 hmem
  · intro a2 hge
    dsimp only [regFuture] at hge ⊢
    have hne : a2 ≠ a := by omega
    rw [updHeap_other _ _ _ _ hne]
    exact hd a2 hge
  · intro id2 a2 hm2
    dsimp only [regFuture] at hm2 ⊢
    by_cases hk : id2 = (s1.heap a).id
    · subst hk
      rw [updMap_same] at hm2
      injection hm2 with h2
      subst h2
      rw [updHeap_same]
      exact ⟨rfl, Or.inl (by simp)⟩
    · rw [updMap_other _ _ _ _ hk] at hm2
      have ha2 : a2 ≠ a := fun h2 => hnomap id2 (h2 ▸ hm2)
      rw [updHeap_other _ _ _ _ ha2]
      exact hE id2 a2 hm2
  · intro a2 f harm
    dsimp only [regFuture] at harm ⊢
    by_cases ha2 : a2 = a
    · subst ha2
      rw [updHeap_same] at harm ⊢
      simp only [setTimer_timer, Option.some.injEq] at harm
      have hf : f = (s1.heap a2).expirationTime := by
        cases harm; rfl
      subst hf
      simp only [setTimer_id, setTimer_time]
      rw [updMap_same]
      exact ⟨rfl, trivial⟩
    · rw [updHeap_other _ _ _ _ ha2] at harm ⊢
      obtain ⟨hmapped, hfeq⟩ := hB a2 f ha2 harm
      have hneq : (s1.heap a2).id ≠ (s1.heap a).id := by
        intro he
        rw [he, hown] at hmapped
        cases hmapped
      rw [updMap_other _ _ _ _ hneq]
      exact ⟨hmapped, hfeq⟩
  · intro a2 hmem a3 hm3
    dsimp only [regFuture] at hmem hm3 ⊢
    have ha2 : a2 ≠ a := fun h2 => hnc (h2 ▸ hmem)
    rw [updHeap_other _ _ _ _ ha2] at hm3
    rw [updMap_other _ _ _ _ (hic a2 hmem)] at hm3
    exact hCU a2 hmem a3 hm3
  · intro a2 hmem f
    dsimp only [regFuture] at hmem ⊢
    have ha2 : a2 ≠ a := fun h2 => hnc (h2 ▸ hmem)
    rw [updHeap_other _ _ _ _ ha2]
    exact hCA a2 hmem f

theorem calmInv_regPast (s1 : ExpState) (a : Nat)
    (mb : ∀ id2 a2, s1.expirationMap id2 = some a2 → a2 < s1.nextAddr)
    (cb : ∀ a2 ∈ s1.expirationChannel, a2 < s1.nextAddr)
    (hd : ∀ a2, s1.nextAddr ≤ a2 → s1.heap a2 = zeroHandle)
    (ha : a < s1.nextAddr)
    (hown : s1.expirationMap ((s1.heap a).id) = none)
    (hE : ∀ id2 a2, s1.expirationMap id2 = some a2 →
      (s1.heap a2).id = id2 ∧
      ((s1.heap a2).expirationTimer =
          some (.armed (s1.heap a2).expirationTime) ∨
       ((s1.heap a2).expirationTimer = some .fired ∧
          a2 ∈ s1.expirationChannel)))
    (hB : ∀ a2 f, a2 ≠ a →
      (s1.heap a2).expirationTimer = some (.armed f) →
      s1.expirationMap ((s1.heap a2).id) = some a2 ∧
        f = (s1.heap a2).expirationTime)
    (hCU : ∀ a2 ∈ s1.expirationChannel, ∀ a3,
      s1.expirationMap ((s1.heap a2).id) = some a3 → a3 = a2)
    (hCA : ∀ a2 ∈ s1.expirationChannel, ∀ f,
      (s1.heap a2).expirationTimer ≠ some (.armed f))
    (hAna : ∀ f, (s1.heap a).expirationTimer ≠ some (.armed f)) :
    CalmInv (regPast s1 a) := by
  constructor
  · intro id2 a2 hm2
    dsimp only [regPast] at hm2 ⊢
    exact mb id2 a2 hm2
  · intro a2 hmem
    dsimp only [regPast] at hmem ⊢
    rcases List.mem_append.mp hmem with h2 | h2
    · exact cb a2 h2
    · rw [List.mem_singleton.mp h2]
      exact ha
  · intro a2 hge
    dsimp only [regPast] at hge ⊢
    exact hd a2 hge
  · intro id2 a2 hm2
    dsimp only [regPast] at hm2 ⊢
    obtain ⟨h2, h3⟩ := hE id2 a2 hm2
    refine ⟨h2, ?_⟩
    rcases h3 with h3 | ⟨h3, h4⟩
    · exact Or.inl h3
    · exact Or.inr ⟨h3, List.mem_append_left _ h4⟩
  · intro a2 f harm
    dsimp only [regPast] at harm ⊢
    have ha2 : a2 ≠ a := by
      intro h2
      exact hAna f (h2 ▸ harm)
    exact hB a2 f ha2 harm
  · intro a2 hmem a3 hm3
    dsimp only [regPast] at hmem hm3 ⊢
    rcases List.mem_append.mp hmem with h2 | h2
    · exact hCU a2 h2 a3 hm3
    · rw [List.mem_singleton.mp h2] at hm3 ⊢
      rw [hown] at hm3
      cases hm3
  · intro a2 hmem f
    dsimp only [regPast] at hmem ⊢
    rcases List.mem_append.mp hmem with h2 | h2
    · exact hCA a2 h2 f
    · rw [List.mem_singleton.mp h2]
      exact hAna f

theorem calmInv_register {s : ExpState} {a : Nat} (pre : RegPre s a) :
    CalmInv (registerExpirationHandle s a) := by
  cases ht : (s.heap a).expirationTimer with
  | none =>
      have hown : s.expirationMap ((s.heap a).id) = none := by
        rcases pre.own with h | ⟨h2, hne⟩
        · exact h
        · exact absurd ht hne
      have hnomap : ∀ id2, s.expirationMap id2 ≠ some a := by
        intro id2 hcontra
        have hk := pre.onlyOwn id2 hcontra
        rw [hk, hown] at hcontra
        cases hcontra
      have hE : ∀ id2 a2, s.expirationMap id2 = some a2 →
          (s.heap a2).id = id2 ∧
          ((s.heap a2).expirationTimer =
              some (.armed (s.heap a2).expirationTime) ∨
           ((s.heap a2).expirationTimer = some .fired ∧
              a2 ∈ s.expirationChannel)) := by
        intro id2 a2 hm2
        by_cases ha2 : a2 = a
        · subst ha2; exact absurd hm2 (hnomap id2)
        · exact pre.others id2 a2 ha2 hm2
      by_cases hf : s.now < (s.heap a).expirationTime
      · rw [register_eq_future_none s a ht hf]
        exact calmInv_regFuture s a pre.mapBound pre.chanBound
          pre.heapDefault pre.aBound hnomap hown hE pre.othersArmed
          pre.chanUnique pre.chanNotArmed pre.notInChan pre.idNotInChan
      · rw [register_eq_past_none s a ht hf]
        exact calmInv_regPast s a pre.mapBound pre.chanBound
          pre.heapDefault pre.aBound hown hE pre.othersArmed
          pre.chanUnique pre.chanNotArmed
          (fun f h2 => by rw [ht] at h2; cases h2)
  | some ts =>
      have hch : (cancelExpirationHandle s a).heap a =
          setTimer (s.heap a) (stopTimer (s.heap a).expirationTimer) := by
        rw [cancel_heap, updHeap_same]
      have hcmb : ∀ id2 a2,
          (cancelExpirationHandle s a).expirationMap id2 = some a2 →
          a2 < (cancelExpirationHandle s a).nextAddr := by
        intro id2 a2 hm2
        rw [cancel_map] at hm2
        rw [cancel_nextAddr]
        by_cases hk : id2 = (s.heap a).id
        · rw [hk, updMap_same] at hm2; cases hm2
        · rw [updMap_other _ _ _ _ hk] at hm2
          exact pre.mapBound id2 a2 hm2
      have hccb : ∀ a2 ∈ (cancelExpirationHandle s a).expirationChannel,
          a2 < (cancelExpirationHandle s a).nextAddr := by
        intro a2 hmem
        rw [cancel_chan] at hmem
        rw [cancel_nextAddr]
        exact pre.chanBound a2 hmem
      have hchd : ∀ a2, (cancelExpirationHandle s a).nextAddr ≤ a2 →
          (cancelExpirationHandle s a).heap a2 = zeroHandle := by
        intro a2 hge
        rw [cancel_nextAddr] at hge
        have hne : a2 ≠ a := by
          have := pre.aBound
          omega
        rw [cancel_heap, updHeap_other _ _ _ _ hne]
        exact pre.heapDefault a2 hge
      have hcha : a < (cancelExpirationHandle s a).nextAddr := by
        rw [cancel_nextAddr]; exact pre.aBound
      have hcnomap : ∀ id2,
          (cancelExpirationHandle s a).expirationMap id2 ≠ some a := by
        intro id2 hcontra
        rw [cancel_map] at hcontra
        by_cases hk : id2 = (s.heap a).id
        · rw [hk, updMap_same] at hcontra; cases hcontra
        · rw [updMap_other _ _ _ _ hk] at hcontra
          exact hk (pre.onlyOwn id2 hcontra)
      have hcown : (cancelExpirationHandle s a).expirationMap
          (((cancelExpirationHandle s a).heap a).id) = none := by
        rw [hch, cancel_map]
        simp only [setTimer_id]
        rw [updMap_same]
      have hcE : ∀ id2 a2,
          (cancelExpirationHandle s a).expirationMap id2 = some a2 →
          (((cancelExpirationHandle s a).heap a2).id = id2 ∧
          (((cancelExpirationHandle s a).heap a2).expirationTimer =
              some (.armed
                ((cancelExpirationHandle s a).heap a2).expirationTime) ∨
           (((cancelExpirationHandle s a).heap a2).expirationTimer =
              some .fired ∧
              a2 ∈ (cancelExpirationHandle s a).expirationChannel))) := by
        intro id2 a2 hm2
        rw [cancel_map] at hm2
        by_cases hk : id2 = (s.heap a).id
        · rw [hk, updMap_same] at hm2; cases hm2
        · rw [updMap_other _ _ _ _ hk] at hm2
          have ha2 : a2 ≠ a := by
            intro h2
            exact hk (pre.onlyOwn id2 (h2 ▸ hm2))
          rw [cancel_heap, cancel_chan, updHeap_other _ _ _ _ ha2]
          exact pre.others id2 a2 ha2 hm2
      have hcB : ∀ a2 f, a2 ≠ a →
          ((cancelExpirationHandle s a).heap a2).expirationTimer =
            some (.armed f) →
          (cancelExpirationHandle s a).expirationMap
            (((cancelExpirationHandle s a).heap a2).id) = some a2 ∧
          f = ((cancelExpirationHandle s a).heap a2).expirationTime := by
        intro a2 f ha2 harm
        rw [cancel_heap, updHeap_other _ _ _ _ ha2] at harm
        obtain ⟨hmapped, hfeq⟩ := pre.othersArmed a2 f ha2 harm
        have hkey : (s.heap a2).id ≠ (s.heap a).id := by
          intro he
          rw [he] at hmapped
          rcases pre.own with h | ⟨hsome, _⟩
          · rw [h] at hmapped; cases hmapped
          · rw [hsome] at hmapped
            injection hmapped with h2
            exact ha2 h2.symm
        rw [cancel_heap, updHeap_other _ _ _ _ ha2, cancel_map,
          updMap_other _ _ _ _ hkey]
        exact ⟨hmapped, hfeq⟩
      have hcCU : ∀ a2 ∈ (cancelExpirationHandle s a).expirationChannel,
          ∀ a3, (cancelExpirationHandle s a).expirationMap
            (((cancelExpirationHandle s a).heap a2).id) = some a3 →
          a3 = a2 := by
        intro a2 hmem a3 hm3
        rw [cancel_chan] at hmem
        have ha2 : a2 ≠ a := fun h2 => pre.notInChan (h2 ▸ hmem)
        rw [cancel_heap, updHeap_other _ _ _ _ ha2, cancel_map,
          updMap_other _ _ _ _ (pre.idNotInChan a2 hmem)] at hm3
        exact pre.chanUnique a2 hmem a3 hm3
      have hcCA : ∀ a2 ∈ (cancelExpirationHandle s a).expirationChannel,
          ∀ f, ((cancelExpirationHandle s a).heap a2).expirationTimer ≠
            some (.armed f) := by
        intro a2 hmem f
        rw [cancel_chan] at hmem
        have ha2 : a2 ≠ a := fun h2 => pre.notInChan (h2 ▸ hmem)
        rw [cancel_heap, updHeap_other _ _ _ _ ha2]
        exact pre.chanNotArmed a2 hmem f
      have hcnc : a ∉ (cancelExpirationHandle s a).expirationChannel := by
        rw [cancel_chan]; exact pre.notInChan
      have hcic : ∀ a2 ∈ (cancelExpirationHandle s a).expirationChannel,
          ((cancelExpirationHandle s a).heap a2).id ≠
            ((cancelExpirationHandle s a).heap a).id := by
        intro a2 hmem
        rw [cancel_chan] at hmem
        have ha2 : a2 ≠ a := fun h2 => pre.notInChan (h2 ▸ hmem)
        rw [hch, cancel_heap, updHeap_other _ _ _ _ ha2]
        simp only [setTimer_id]
        exact pre.idNotInChan a2 hmem
      have hcAna : ∀ f,
          ((cancelExpirationHandle s a).heap a).expirationTimer ≠
            some (.armed f) := by
        intro f
        rw [hch]
        simp only [setTimer_timer]
        exact stopTimer_not_armed _ f
      by_cases hf : s.now < (s.heap a).expirationTime
      · rw [register_eq_future_some s a ts ht hf]
        have hte : ((cancelExpirationHandle s a).heap a).expirationTime =
            (s.heap a).expirationTime := by
          rw [hch]; simp only [setTimer_time]
        rw [← hte]
        exact calmInv_regFuture (cancelExpirationHandle s a) a hcmb hccb
          hchd hcha hcnomap hcown hcE hcB hcCU hcCA hcnc hcic
      · rw [register_eq_past_some s a ts ht hf]
        exact calmInv_regPast (cancelExpirationHandle s a) a hcmb hccb
          hchd hcha hcown hcE hcB hcCU hcCA hcAna

theorem regPre_fresh {s : ExpState} (id : ExpirableID) (t : Int)
    (inv : CalmInv s)
    (hg : ∀ a2 ∈ s.expirationChannel, (s.heap a2).id ≠ id)
    (hm : s.expirationMap id = none) :
    RegPre
      { s with nextAddr := s.nextAddr + 1
               heap := updHeap s.heap s.nextAddr
                 { expirationTime := t, id := id, expirationTimer := none } }
      s.nextAddr := by
  constructor
  · intro id2 a2 hm2
    exact Nat.lt_succ_of_lt (inv.mapBound id2 a2 hm2)
  · intro a2 hmem
    exact Nat.lt_succ_of_lt (inv.chanBound a2 hmem)
  · intro a2 hge
    dsimp only at hge ⊢
    have hne : a2 ≠ s.nextAddr := by omega
    rw [updHeap_other _ _ _ _ hne]
    exact inv.heapDefault a2 (by omega)
  · exact Nat.lt_succ_self _
  · intro id2 hm2
    dsimp only at hm2
    exact absurd (inv.mapBound id2 s.nextAddr hm2) (lt_irrefl _)
  · left
    dsimp only
    rw [updHeap_same]
    exact hm
  · intro id2 a2 ha2 hm2
    dsimp only at hm2 ⊢
    rw [updHeap_other _ _ _ _ ha2]
    exact inv.entries id2 a2 hm2
  · intro a2 f ha2 harm
    dsimp only at harm ⊢
    rw [updHeap_other _ _ _ _ ha2] at harm ⊢
    exact inv.armedMapped a2 f harm
  · intro a2 hmem a3 hm3
    dsimp only at hmem hm3 ⊢
    have ha2 : a2 ≠ s.nextAddr := Nat.ne_of_lt (inv.chanBound a2 hmem)
    rw [updHeap_other _ _ _ _ ha2] at hm3
    exact inv.chanUnique a2 hmem a3 hm3
  · intro a2 hmem f
    dsimp only at hmem ⊢
    have ha2 : a2 ≠ s.nextAddr := Nat.ne_of_lt (inv.chanBound a2 hmem)
    rw [updHeap_other _ _ _ _ ha2]
    exact inv.chanNotArmed a2 hmem f
  · intro hmem
    dsimp only at hmem
    exact absurd (inv.chanBound s.nextAddr hmem) (lt_irrefl _)
  · intro a2 hmem
    dsimp only at hmem ⊢
    have ha2 : a2 ≠ s.nextAddr := Nat.ne_of_lt (inv.chanBound a2 hmem)
    rw [updHeap_other _ _ _ _ ha2, updHeap_same]
    exact hg a2 hmem

theorem regPre_mem {s : ExpState} (id : ExpirableID) (a0 : Nat) (dur : Int)
    (inv : CalmInv s)
    (hg : ∀ a2 ∈ s.expirationChannel, (s.heap a2).id ≠ id)
    (hm : s.expirationMap id = some a0) :
    RegPre
      { s with heap := updHeap s.heap a0 (setTime (s.heap a0) (s.now + dur)) }
      a0 := by
  have hid0 : (s.heap a0).id = id := (inv.entries id a0 hm).1
  have hnchan : a0 ∉ s.expirationChannel := fun hmem => hg a0 hmem hid0
  have htimer : (s.heap a0).expirationTimer =
      some (.armed (s.heap a0).expirationTime) := by
    rcases (inv.entries id a0 hm).2 with h2 | ⟨h2, hmem⟩
    · exact h2
    · exact absurd hmem hnchan
  have hb0 : a0 < s.nextAddr := inv.mapBound id a0 hm
  constructor
  · intro id2 a2 hm2
    exact inv.mapBound id2 a2 hm2
  · intro a2 hmem
    exact inv.chanBound a2 hmem
  · intro a2 hge
    dsimp only at hge ⊢
    have hne : a2 ≠ a0 := by omega
    rw [updHeap_other _ _ _ _ hne]
    exact inv.heapDefault a2 hge
  · exact hb0
  · intro id2 hm2
    dsimp only at hm2 ⊢
    rw [updHeap_same, setTime_id]
    exact ((inv.entries id2 a0 hm2).1).symm
  · right
    dsimp only
    rw [updHeap_same, setTime_id, setTime_timer, hid0, htimer]
    exact ⟨hm, by simp⟩
  · intro id2 a2 ha2 hm2
    dsimp only at hm2 ⊢
    rw [updHeap_other _ _ _ _ ha2]
    exact inv.entries id2 a2 hm2
  · intro a2 f ha2 harm
    dsimp only at harm ⊢
    rw [updHeap_other _ _ _ _ ha2] at harm ⊢
    exact inv.armedMapped a2 f harm
  · intro a2 hmem a3 hm3
    dsimp only at hmem hm3 ⊢
    have ha2 : a2 ≠ a0 := fun h2 => hnchan (h2 ▸ hmem)
    rw [updHeap_other _ _ _ _ ha2] at hm3
    exact inv.chanUnique a2 hmem a3 hm3
  · intro a2 hmem f
    dsimp only at hmem ⊢
    have ha2 : a2 ≠ a0 := fun h2 => hnchan (h2 ▸ hmem)
    rw [updHeap_other _ _ _ _ ha2]
    exact inv.chanNotArmed a2 hmem f
  · exact hnchan
  · intro a2 hmem
    dsimp only at hmem ⊢
    have ha2 : a2 ≠ a0 := fun h2 => hnchan (h2 ▸ hmem)
    rw [updHeap_other _ _ _ _ ha2, updHeap_same, setTime_id, hid0]
    exact hg a2 hmem

theorem calmInv_expireObject {s : ExpState} (id : ExpirableID) (dur : Int)
    (inv : CalmInv s)
    (hg : ∀ a2 ∈ s.expirationChannel, (s.heap a2).id ≠ id) :
    CalmInv (expireObject s id dur) := by
  cases hm : s.expirationMap id with
  | some a0 =>
      rw [expireObject_def_mem s id a0 dur hm]
      exact calmInv_register (regPre_mem id a0 dur inv hg hm)
  | none =>
      rw [expireObject_def_new s id dur hm]
      exact calmInv_register (regPre_fresh id (s.now + dur) inv hg hm)

theorem calmInv_loadHandle {s : ExpState} (id : ExpirableID) (t : Int)
    (inv : CalmInv s)
    (hg : ∀ a2 ∈ s.expirationChannel, (s.heap a2).id ≠ id)
    (hm : s.expirationMap id = none) :
    CalmInv (loadHandle s id t) := by
  rw [loadHandle_def]
  exact calmInv_register (regPre_fresh id t inv hg hm)

theorem calmInv_cancelObject {s : ExpState} (id : ExpirableID)
    (inv : CalmInv s) : CalmInv (cancelObjectExpiration s id) := by
  cases hm : s.expirationMap id with
  | none => rw [cancelObject_def_none s id hm]; exact inv
  | some a0 =>
      rw [cancelObject_def_mem s id a0 hm]
      have hid0 : (s.heap a0).id = id := (inv.entries id a0 hm).1
      constructor
      · intro id2 a2 hm2
        rw [cancel_map] at hm2
        rw [cancel_nextAddr]
        by_cases hk : id2 = (s.heap a0).id
        · rw [hk, updMap_same] at hm2; cases hm2
        · rw [updMap_other _ _ _ _ hk] at hm2
          exact inv.mapBound id2 a2 hm2
      · intro a2 hmem
        rw [cancel_chan] at hmem
        rw [cancel_nextAddr]
        exact inv.chanBound a2 hmem
      · intro a2 hge
        rw [cancel_nextAddr] at hge
        have hb0 : a0 < s.nextAddr := inv.mapBound id a0 hm
        have hne : a2 ≠ a0 := by omega
        rw [cancel_heap, updHeap_other _ _ _ _ hne]
        exact inv.heapDefault a2 hge
      · intro id2 a2 hm2
        rw [cancel_map] at hm2
        by_cases hk : id2 = (s.heap a0).id
        · rw [hk, updMap_same] at hm2; cases hm2
        · rw [updMap_other _ _ _ _ hk] at hm2
          have ha2 : a2 ≠ a0 := by
            intro h2
            exact hk (((inv.entries id2 a2 hm2).1).symm.trans
              (by rw [h2]) |>.symm ▸ rfl)
          rw [cancel_heap, cancel_chan, updHeap_other _ _ _ _ ha2]
          exact inv.entries id2 a2 hm2
      · intro a2 f harm
        by_cases ha2 : a2 = a0
        · rw [ha2, cancel_heap, updHeap_same, setTimer_timer] at harm
          exact absurd harm (stopTimer_not_armed _ f)
        · rw [cancel_heap, updHeap_other _ _ _ _ ha2] at harm
          obtain ⟨hmapped, hfeq⟩ := inv.armedMapped a2 f harm
          have hkey : (s.heap a2).id ≠ (s.heap a0).id := by
            intro he
            rw [he, hid0, hm] at hmapped
            injection hmapped with h2
            exact ha2 h2.symm
          rw [cancel_heap, updHeap_other _ _ _ _ ha2, cancel_map,
            updMap_other _ _ _ _ hkey]
          exact ⟨hmapped, hfeq⟩
      · intro a2 hmem a3 hm3
        rw [cancel_chan] at hmem
        by_cases ha2 : a2 = a0
        · rw [ha2, cancel_heap, updHeap_same, setTimer_id, cancel_map,
            updMap_same] at hm3
          cases hm3
        · rw [cancel_heap, updHeap_other _ _ _ _ ha2, cancel_map] at hm3
          by_cases hkey : (s.heap a2).id = (s.heap a0).id
          · rw [hkey, updMap_same] at hm3; cases hm3
          · rw [updMap_other _ _ _ _ hkey] at hm3
            exact inv.chanUnique a2 hmem a3 hm3
      · intro a2 hmem f
        rw [cancel_chan] at hmem
        by_cases ha2 : a2 = a0
        · rw [ha2, cancel_heap, updHeap_same, setTimer_timer]
          exact stopTimer_not_armed _ f
        · rw [cancel_heap, updHeap_other _ _ _ _ ha2]
          exact inv.chanNotArmed a2 hmem f

theorem calmInv_timerFire {s : ExpState} (a : Nat) (inv : CalmInv s) :
    CalmInv (timerFire s a) := by
  unfold timerFire
  split
  · rename_i f heq
    split
    · rename_i hle
      obtain ⟨hmapped, hfeq⟩ := inv.armedMapped a f heq
      have hb : a < s.nextAddr := inv.mapBound _ a hmapped
      have hnm : a ∉ s.expirationChannel := fun hmem =>
        inv.chanNotArmed a hmem f heq
      constructor
      · intro id2 a2 hm2
        dsimp only at hm2 ⊢
        exact inv.mapBound id2 a2 hm2
      · intro a2 hmem
        dsimp only at hmem ⊢
        rcases List.mem_append.mp hmem with h2 | h2
        · exact inv.chanBound a2 h2
        · rw [List.mem_singleton.mp h2]; exact hb
      · intro a2 hge
        dsimp only at hge ⊢
        have hne : a2 ≠ a := by omega
        rw [updHeap_other _ _ _ _ hne]
        exact inv.heapDefault a2 hge
      · intro id2 a2 hm2
        dsimp only at hm2 ⊢
        by_cases ha2 : a2 = a
        · subst ha2
          rw [updHeap_same]
          refine ⟨by rw [setTimer_id]; exact (inv.entries id2 a2 hm2).1, ?_⟩
          right
          refine ⟨by rw [setTimer_timer], ?_⟩
          exact List.mem_append_right _ (List.mem_singleton.mpr rfl)
        · rw [updHeap_other _ _ _ _ ha2]
          obtain ⟨h2, h3⟩ := inv.entries id2 a2 hm2
          refine ⟨h2, ?_⟩
          rcases h3 with h3 | ⟨h3, h4⟩
          · exact Or.inl h3
          · exact Or.inr ⟨h3, List.mem_append_left _ h4⟩
      · intro a2 f2 harm
        dsimp only at harm ⊢
        by_cases ha2 : a2 = a
        · rw [ha2, updHeap_same, setTimer_timer] at harm
          cases harm
        · rw [updHeap_other _ _ _ _ ha2] at harm ⊢
          exact inv.armedMapped a2 f2 harm
      · intro a2 hmem a3 hm3
        dsimp only at hmem hm3 ⊢
        rcases List.mem_append.mp hmem with h2 | h2
        · have ha2 : a2 ≠ a := fun he => hnm (he ▸ h2)
          rw [updHeap_other _ _ _ _ ha2] at hm3
          exact inv.chanUnique a2 h2 a3 hm3
        · rw [List.mem_singleton.mp h2] at hm3 ⊢
          rw [updHeap_same, setTimer_id] at hm3
          rw [hmapped] at hm3
          injection hm3 with h3
          exact h3.symm
      · intro a2 hmem f2
        dsimp only at hmem ⊢
        rcases List.mem_append.mp hmem with h2 | h2
        · have ha2 : a2 ≠ a := fun he => hnm (he ▸ h2)
          rw [updHeap_other _ _ _ _ ha2]
          exact inv.chanNotArmed a2 h2 f2
        · rw [List.mem_singleton.mp h2, updHeap_same, setTimer_timer]
          simp
    · exact inv
  · exact inv

theorem process_fields (s : ExpState) (a : Nat) (rest : List Nat)
    (hc : s.expirationChannel = a :: rest) :
    (processExpiration s).expirationMap =
      updMap s.expirationMap ((s.heap a).id) none ∧
    (processExpiration s).expirationChannel = rest ∧
    (processExpiration s).heap = s.heap ∧
    (processExpiration s).nextAddr = s.nextAddr := by
  unfold processExpiration
  rw [hc]
  dsimp only
  split
  · exact ⟨rfl, rfl, rfl, rfl⟩
  · exact ⟨rfl, rfl, rfl, rfl⟩

theorem calmInv_process {s : ExpState} (inv : CalmInv s) :
    CalmInv (processExpiration s) := by
  cases hc : s.expirationChannel with
  | nil =>
      have : processExpiration s = s := by
        unfold processExpiration
        rw [hc]
      rw [this]
      exact inv
  | cons a rest =>
      obtain ⟨hfm, hfc, hfh, hfn⟩ := process_fields s a rest hc
      have hamem : a ∈ s.expirationChannel := by rw [hc]; exact List.mem_cons_self a rest
      have hDa := inv.chanUnique a hamem
      have hEa := inv.chanNotArmed a hamem
      constructor
      · intro id2 a2 hm2
        rw [hfm] at hm2
        rw [hfn]
        by_cases hk : id2 = (s.heap a).id
        · rw [hk, updMap_same] at hm2; cases hm2
        · rw [updMap_other _ _ _ _ hk] at hm2
          exact inv.mapBound id2 a2 hm2
      · intro a2 hmem
        rw [hfc] at hmem
        rw [hfn]
        exact inv.chanBound a2 (by rw [hc]; exact List.mem_cons_of_mem a hmem)
      · intro a2 hge
        rw [hfn] at hge
        rw [hfh]
        exact inv.heapDefault a2 hge
      · intro id2 a2 hm2
        rw [hfm] at hm2
        rw [hfh, hfc]
        by_cases hk : id2 = (s.heap a).id
        · rw [hk, updMap_same] at hm2; cases hm2
        · rw [updMap_other _ _ _ _ hk] at hm2
          obtain ⟨h2, h3⟩ := inv.entries id2 a2 hm2
          have ha2 : a2 ≠ a := by
            intro he
            exact hk (by rw [← he]; exact h2.symm)
          refine ⟨h2, ?_⟩
          rcases h3 with h3 | ⟨h3, h4⟩
          · exact Or.inl h3
          · refine Or.inr ⟨h3, ?_⟩
            rw [hc] at h4
            rcases List.mem_cons.mp h4 with h5 | h5
            · exact absurd h5 ha2
            · exact h5
      · intro a2 f harm
        rw [hfh] at harm
        rw [hfh, hfm]
        obtain ⟨hmapped, hfeq⟩ := inv.armedMapped a2 f harm
        have hkey : (s.heap a2).id ≠ (s.heap a).id := by
          intro he
          rw [he] at hmapped
          have := hDa a2 hmapped
          subst this
          exact hEa f harm
        rw [updMap_other _ _ _ _ hkey]
        exact ⟨hmapped, hfeq⟩
      · intro a2 hmem a3 hm3
        rw [hfc] at hmem
        rw [hfh, hfm] at hm3
        by_cases hkey : (s.heap a2).id = (s.heap a).id
        · rw [hkey, updMap_same] at hm3; cases hm3
        · rw [updMap_other _ _ _ _ hkey] at hm3
          exact inv.chanUnique a2
            (by rw [hc]; exact List.mem_cons_of_mem a hmem) a3 hm3
      · intro a2 hmem f
        rw [hfc] at hmem
        rw [hfh]
        exact inv.chanNotArmed a2
          (by rw [hc]; exact List.mem_cons_of_mem a hmem) f

theorem calmInv_of_fields {s s2 : ExpState} (inv : CalmInv s)
    (hmap : s2.expirationMap = s.expirationMap)
    (hchan : s2.expirationChannel = s.expirationChannel)
    (hheap : s2.heap = s.heap) (hnext : s2.nextAddr = s.nextAddr) :
    CalmInv s2 := by
  constructor
  · rw [hmap, hnext]; exact inv.mapBound
  · rw [hchan, hnext]; exact inv.chanBound
  · rw [hnext, hheap]; exact inv.heapDefault
  · rw [hmap, hheap, hchan]; exact inv.entries
  · rw [hheap, hmap]; exact inv.armedMapped
  · rw [hchan, hheap, hmap]; exact inv.chanUnique
  · rw [hchan, hheap]; exact inv.chanNotArmed

theorem calmInv_step {s s2 : ExpState} (inv : CalmInv s)
    (st : CalmStep s s2) : CalmInv s2 := by
  cases st with
  | expire id dur hg => exact calmInv_expireObject id dur inv hg
  | cancel id => exact calmInv_cancelObject id inv
  | load id t hg hm => exact calmInv_loadHandle id t inv hg hm
  | fire a => exact calmInv_timerFire a inv
  | process => exact calmInv_process inv
  | utick o =>
      have h := utick_fields s o
      exact calmInv_of_fields inv h.1 h.2.1 h.2.2.1 h.2.2.2
  | rtick o =>
      have h := rtick_fields s o
      exact calmInv_of_fields inv h.1 h.2.1 h.2.2.1 h.2.2.2
  | advance d hd => exact calmInv_of_fields inv rfl rfl rfl rfl

theorem calmInv_init (store : List ExpirableID) :
    CalmInv (initState store) := by
  constructor
  · intro id a hm; exact absurd hm (by simp [initState])
  · intro a hmem; exact absurd hmem (by simp [initState])
  · intro a hge; rfl
  · intro id a hm; exact absurd hm (by simp [initState])
  · intro a f harm; exact absurd harm (by simp [initState, zeroHandle])
  · intro a hmem; exact absurd hmem (by simp [initState])
  · intro a hmem; exact absurd hmem (by simp [initState])

theorem calmInv_reachable {s : ExpState} (h : CalmReachable s) :
    CalmInv s := by
  induction h with
  | init store => exact calmInv_init store
  | step hr hs ih => exact calmInv_step ih hs

/-- Race (2) of the C3 amendment, demonstrated: with an empty queue
throughout, ExpireObject("a", 5) arms a handle at address 0, and a
concurrent startup load of a persisted entry for "a" (deadline 10)
registers a fresh nil-timer handle at address 1, overwriting the map entry
without cancelling - leaving the old handle armed at 5 with no map entry.
This is why CalmStep.load requires the loaded id to be unmapped. -/
theorem load_overwrite_orphans_armed_timer :
    (loadHandle (expireObject (initState []) "a" 5) "a" 10).expirationMap
      "a" = some 1 ∧
    ((loadHandle (expireObject (initState []) "a" 5) "a"
      10).heap 0).expirationTimer = some (.armed 5) ∧
    ((loadHandle (expireObject (initState []) "a" 5) "a"
      10).heap 0).id = "a" :=
  ⟨rfl, rfl, rfl⟩

/-- C3 amended: in every state reachable through executions that avoid the
two registration races the code permits - (1) no handle is (re)registered
for an id while an expiration for that same id is still queued, and (2) the
startup load goroutine never registers an id that already has a live map
entry (loadExpirations performs no cancellation, so it would overwrite the
entry and orphan the armed timer of a concurrent ExpireObject) - the map and
the timers are in lockstep: every Handle present in the HandleMap carries
its own key and has a timer armed exactly at its expirationTime, unless that
timer has already fired and its expiration is still waiting in the queue;
and every armed handle is in the map under its own id (so a Handle absent
from the map never has an armed timer), armed exactly at its expirationTime.
These two exclusions are precisely the guards on CalmStep.expire and
CalmStep.load.  Without them the invariant is false (see the C3
counterexample for race (1) and load_overwrite_orphans_armed_timer for
race (2)). -/
theorem C3_lockstep_invariant (s : ExpState) (h : CalmReachable s) :
    (∀ id a, s.expirationMap id = some a →
      (s.heap a).id = id ∧
      ((s.heap a).expirationTimer =
          some (.armed (s.heap a).expirationTime) ∨
       ((s.heap a).expirationTimer = some .fired ∧
          a ∈ s.expirationChannel))) ∧
    (∀ a f, (s.heap a).expirationTimer = some (.armed f) →
      s.expirationMap ((s.heap a).id) = some a ∧
        f = (s.heap a).expirationTime) := by
  have inv := calmInv_reachable h
  exact ⟨inv.entries, inv.armedMapped⟩

theorem C3_lockstep_invariant_witness :
    (expireObject (initState []) "a" 5).expirationMap "a" = some 0 ∧
    ((expireObject (initState []) "a" 5).heap 0).id = "a" :=
  ⟨rfl,
    ((C3_lockstep_invariant (expireObject (initState []) "a" 5)
      (CalmReachable.step (CalmReachable.init [])
        (CalmStep.expire (initState []) "a" 5
          (fun a2 hmem => by simp [initState] at hmem)))).1
      "a" 0 rfl).1⟩

/-- C4 counterexample: register "a" with TTL 50, let the timer fire and
enqueue at time 50, then - before the event loop runs - call ExpireObject
again with TTL 500.  The re-registration calls Stop on the already-fired
timer (a no-op) and re-arms for deadline 550, but the loop then processes
the stale queued expiration: the store's destroy callback for "a" runs at
time 50, while the most recent registration's deadline 550 is still in the
future.  So "only the most recent registration's deadline remains in
effect" is false as an unconditional statement. -/
theorem C4_counterexample :
    (processExpiration (expireObject (timerFire (advanceTime (expireObject
        (initState ["a"]) "a" 50) 50) 0) "a" 500)).destroyed = ["a"] ∧
    (processExpiration (expireObject (timerFire (advanceTime (expireObject
        (initState ["a"]) "a" 50) 50) 0) "a" 500)).now = 50 ∧
    ((processExpiration (expireObject (timerFire (advanceTime (expireObject
        (initState ["a"]) "a" 50) 50) 0) "a" 500)).heap 0).expirationTime =
      550 ∧
    (processExpiration (expireObject (timerFire (advanceTime (expireObject
        (initState ["a"]) "a" 50) 50) 0) "a" 500)).expirationMap "a" =
      none :=
  ⟨rfl, rfl, rfl, rfl⟩

/-- C4 amended: provided the previous registration's timer is still armed
(it has not yet fired) when ExpireObject is called again with a positive
TTL, re-registration cancels and replaces that timer: afterwards the id is
still mapped to the same handle, whose deadline and armed fire time are
exactly now + dur, and nothing was enqueued - so only the most recent
registration's deadline remains in effect.  In the concrete
two-registration scenario (TTL 50, then TTL 500 at time 10) the old
deadline does not fire at all and exactly one eviction occurs, at the
second registration's deadline 510. -/
theorem register_mem_future (s2 : ExpState) (a : Nat) (f T : Int)
    (idv : ExpirableID)
    (ht2 : (s2.heap a).expirationTimer = some (.armed f))
    (hid2 : (s2.heap a).id = idv)
    (hT : (s2.heap a).expirationTime = T)
    (hfut : s2.now < T) :
    (registerExpirationHandle s2 a).expirationMap idv = some a ∧
    ((registerExpirationHandle s2 a).heap a).expirationTime = T ∧
    ((registerExpirationHandle s2 a).heap a).expirationTimer =
      some (.armed T) ∧
    (registerExpirationHandle s2 a).expirationChannel =
      s2.expirationChannel := by
  have hfut2 : s2.now < (s2.heap a).expirationTime := by
    rw [hT]; exact hfut
  rw [register_eq_future_some s2 a (.armed f) ht2 hfut2]
  have hch : (cancelExpirationHandle s2 a).heap a =
      setTimer (s2.heap a) (stopTimer (s2.heap a).expirationTimer) := by
    rw [cancel_heap, updHeap_same]
  refine ⟨?_, ?_, ?_, ?_⟩
  · dsimp only [regFuture]
    rw [hch, setTimer_id, hid2, updMap_same]
  · dsimp only [regFuture]
    rw [updHeap_same, setTimer_time, hch, setTimer_time, hT]
  · dsimp only [regFuture]
    rw [updHeap_same, setTimer_timer, hT]
  · dsimp only [regFuture]
    rw [cancel_chan]

theorem C4_reregistration (s : ExpState) (id : ExpirableID) (a : Nat)
    (dur f : Int) (hm : s.expirationMap id = some a)
    (hid : (s.heap a).id = id)
    (ht : (s.heap a).expirationTimer = some (.armed f))
    (hdur : 0 < dur) :
    ((expireObject s id dur).expirationMap id = some a ∧
     ((expireObject s id dur).heap a).expirationTime = s.now + dur ∧
     ((expireObject s id dur).heap a).expirationTimer =
       some (.armed (s.now + dur)) ∧
     (expireObject s id dur).expirationChannel = s.expirationChannel) ∧
    ((timerFire (advanceTime (expireObject (advanceTime (expireObject
        (initState ["a"]) "a" 50) 10) "a" 500) 40) 0 =
      advanceTime (expireObject (advanceTime (expireObject
        (initState ["a"]) "a" 50) 10) "a" 500) 40) ∧
     (processExpiration (timerFire (advanceTime (expireObject (advanceTime
        (expireObject (initState ["a"]) "a" 50) 10) "a" 500) 500)
        0)).destroyed = ["a"] ∧
     (processExpiration (timerFire (advanceTime (expireObject (advanceTime
        (expireObject (initState ["a"]) "a" 50) 10) "a" 500) 500)
        0)).now = 510) := by
  constructor
  · rw [expireObject_def_mem s id a dur hm]
    exact register_mem_future
      { s with heap := updHeap s.heap a (setTime (s.heap a) (s.now + dur)) }
      a f (s.now + dur) id
      (by dsimp only; rw [updHeap_same, setTime_timer]; exact ht)
      (by dsimp only; rw [updHeap_same, setTime_id]; exact hid)
      (by dsimp only; rw [updHeap_same, setTime_time])
      (by dsimp only; omega)
  · exact ⟨rfl, rfl, rfl⟩

theorem C4_reregistration_witness :
    (expireObject (initState ["a"]) "a" 50).expirationMap "a" = some 0 ∧
    ((expireObject (initState ["a"]) "a" 50).heap 0).expirationTimer =
      some (.armed 50) ∧
    ((expireObject (expireObject (initState ["a"]) "a" 50) "a"
        500).heap 0).expirationTimer = some (.armed 500) :=
  ⟨rfl, rfl,
    (((C4_reregistration (expireObject (initState ["a"]) "a" 50) "a" 0
      500 50 rfl rfl rfl (by decide)).1).2.2).1⟩

end Gotimeout
